import Mathlib

/-!
Verification of the notebook build pipeline of `scripts/notebook_transformer.py`
(data-challenge-notebooks repository).

The development shallowly embeds the Python source into Lean:

* Python `str` values are Lean `String`s; all character-level operations are
  implemented on `List Char` (`String.toList`) so that every definition is
  executable and kernel-reducible.  Python's `\s` / `str.strip` whitespace
  class is modelled over ASCII (the repository's data is ASCII).
* Notebook JSON documents are modelled by the `Cell` / `Notebook` structures;
  a cell `source` may be a single string or a list of strings, exactly as the
  Python code distinguishes with `isinstance`.
* The file system is an association list from path strings to file records
  carrying a modification time and the file's (already deserialized) content;
  JSON serialization, `mkdir`, and stdout/stderr printing are not modelled.
* The network fetch of `_sync_source` and the external RST/HTML converters of
  `_convert_rst_to_notebook` and `_inject_web_content` are abstracted as
  function parameters (the spec places them out of scope); everything else is
  translated line by line from the source.
-/

/-! ## Python string primitives -/

/-- Whitespace class of Python's `str.strip()` and of `\s` in the `re`
module, restricted to ASCII. -/
def isPySpace (c : Char) : Bool :=
  c = ' ' || c = '\t' || c = '\n' || c = '\r' || c = '\x0b' || c = '\x0c'

/-- Backtick character (written via its code point). -/
def btick : Char := Char.ofNat 96

/-- Python `s.strip()` on a character list. -/
def pyStripL (l : List Char) : List Char :=
  ((l.dropWhile isPySpace).reverse.dropWhile isPySpace).reverse

/-- Python `s.strip()`. -/
def pyStrip (s : String) : String := (pyStripL s.toList).asString

/-- Python `s.lstrip("#")`. -/
def dropHashes (s : String) : String := (s.toList.dropWhile (· == '#')).asString

/-- Python `s.strip("*")`. -/
def pyStripStar (s : String) : String :=
  (((s.toList.dropWhile (· == '*')).reverse.dropWhile (· == '*')).reverse).asString

/-- Python `s.lower()` (ASCII). -/
def pyLower (s : String) : String := (s.toList.map Char.toLower).asString

/-- Python `s.capitalize()` (ASCII). -/
def pyCapitalize (s : String) : String :=
  match s.toList with
  | [] => ""
  | c :: rest => (c.toUpper :: rest.map Char.toLower).asString

/-- Decides whether `pat` is an initial segment of `l`. -/
def listStarts : List Char → List Char → Bool
  | [], _ => true
  | _ :: _, [] => false
  | p :: ps, c :: cs => p = c && listStarts ps cs

/-- Python `s.startswith(pat)`. -/
def strStarts (pat s : String) : Bool := listStarts pat.toList s.toList

/-- Python `s.endswith(pat)`. -/
def strEnds (pat s : String) : Bool := listStarts pat.toList.reverse s.toList.reverse

/-- Python `s[n:]` (slicing by code points). -/
def strDrop (s : String) (n : Nat) : String := (s.toList.drop n).asString

/-- Decides whether `pat` occurs contiguously anywhere in `l`
(Python `pat in s`). -/
def hasSub (pat : List Char) : List Char → Bool
  | [] => pat.isEmpty
  | c :: rest => listStarts pat (c :: rest) || hasSub pat rest

/-- Python `pat in s` on strings. -/
def containsSub (pat s : String) : Bool := hasSub pat.toList s.toList

/-- Index of the first occurrence of `pat` in the list, if any. -/
def findSubstr (pat : List Char) : List Char → Option Nat
  | [] => if listStarts pat [] then some 0 else none
  | c :: rest =>
    if listStarts pat (c :: rest) then some 0
    else (findSubstr pat rest).map (· + 1)

/-- Python `"\n".join(lines)`. -/
def joinNL : List String → String
  | [] => ""
  | [l] => l
  | l :: l' :: rest => l ++ "\n" ++ joinNL (l' :: rest)

/-- Python `"".join(parts)`. -/
def joinAll : List String → String
  | [] => ""
  | s :: rest => s ++ joinAll rest

/-- Helper for `str.splitlines()`: accumulates the current line (reversed). -/
def splitlinesL (acc : List Char) : List Char → List (List Char)
  | [] => if acc.isEmpty then [] else [acc.reverse]
  | '\r' :: '\n' :: rest => acc.reverse :: splitlinesL [] rest
  | '\n' :: rest => acc.reverse :: splitlinesL [] rest
  | '\r' :: rest => acc.reverse :: splitlinesL [] rest
  | c :: rest => splitlinesL (c :: acc) rest

/-- Python `s.splitlines()` (line-break set restricted to `\n`, `\r`,
`\r\n`, which covers the repository's data). -/
def pySplitlines (s : String) : List String := (splitlinesL [] s.toList).map List.asString

/-- Helper for `str.splitlines(keepends=True)`. -/
def splitKeepL (acc : List Char) : List Char → List (List Char)
  | [] => if acc.isEmpty then [] else [acc.reverse]
  | '\r' :: '\n' :: rest => (acc.reverse ++ ['\r', '\n']) :: splitKeepL [] rest
  | '\n' :: rest => (acc.reverse ++ ['\n']) :: splitKeepL [] rest
  | '\r' :: rest => (acc.reverse ++ ['\r']) :: splitKeepL [] rest
  | c :: rest => splitKeepL (c :: acc) rest

/-- Python `s.splitlines(keepends=True)`. -/
def pySplitlinesKeep (s : String) : List String := (splitKeepL [] s.toList).map List.asString

/-- Python `str.replace(pat, repl)` for a nonempty literal pattern:
left-to-right, non-overlapping replacement of every occurrence. -/
def replaceAllL (pat repl : List Char) : List Char → List Char
  | [] => []
  | c :: rest =>
    if h : listStarts pat (c :: rest) ∧ pat ≠ [] then
      repl ++ replaceAllL pat repl ((c :: rest).drop pat.length)
    else
      c :: replaceAllL pat repl rest
termination_by l => l.length
decreasing_by
  · simp only [List.length_drop]
    cases pat with
    | nil => exact absurd rfl h.2
    | cons p ps => simp [List.length_cons]; omega
  · simp [List.length_cons]

/-- Python `s.replace(pat, repl)` on strings. -/
def strReplace (pat repl s : String) : String :=
  (replaceAllL pat.toList repl.toList s.toList).asString

/-- Last path component, as in Python `pathlib.Path(p).name`. -/
def basename (p : String) : String :=
  ((p.splitOn "/").filter (fun c => c ≠ "")).getLastD ""

/-- File extension with leading dot, as in Python `pathlib.Path(p).suffix`
applied to a file name. -/
def suffixOf (name : String) : String :=
  let parts := name.splitOn "."
  if parts.length ≤ 1 then ""
  else if strStarts "." name ∧ parts.length = 2 then ""
  else "." ++ parts.getLastD ""

/-! ## Markdown normalizer (`_clean_markdown`)

Translation of `NotebookTransformer._clean_markdown`.  The input text is
first split into lines; a single forward scan with explicit state handles
docutils system messages, fenced code blocks, headings, admonitions and
hanging indents; a second pass filters known diagnostic noise; the result is
joined with newlines, stripped, and given a trailing newline. -/

/-- Result of matching the fence pattern `^(\s*)(X{3,})(.*)$` where `X` is a
backtick or a tilde: captured indentation, fence character, fence length and
trailing info string. -/
structure FenceInfo where
  indent : String
  ch : Char
  flen : Nat
  info : String
deriving DecidableEq, Repr

/-- Matches a line against the fence pattern of `_clean_markdown`
(`^(\s*)(` + "`" + `{3,}|~{3,})(.*)$`). -/
def parseFence (line : String) : Option FenceInfo :=
  let l := line.toList
  let ws := l.takeWhile isPySpace
  let rest := l.dropWhile isPySpace
  match rest with
  | [] => none
  | c :: _ =>
    if c = btick ∨ c = '~' then
      let run := rest.takeWhile (· == c)
      if 3 ≤ run.length then
        some ⟨ws.asString, c, run.length, (rest.drop run.length).asString⟩
      else none
    else none

/-- Fence-length escalation of `_clean_markdown`: fold over the buffered
lines, raising the required length to one more than any nested fence length
that reaches the current requirement. -/
def requiredLen (r : Nat) : List String → Nat
  | [] => r
  | l :: rest =>
    let r1 := match parseFence l with
      | some f => if r ≤ f.flen then f.flen + 1 else r
      | none => r
    requiredLen r1 rest

/-- Run of tildes used to emit a fence delimiter. -/
def tildes (n : Nat) : String := (List.replicate n '~').asString

/-- Content fix applied to buffered lines inside a fence: the known stray
inner heading `## Fitting code snippet` is rewritten to a comment line. -/
def fixLine (line : String) : String :=
  if strStarts "## Fitting code snippet" (pyStrip line) then "# Fitting code snippet"
  else line

/-- Heading normalization of `_clean_markdown`: a bold-wrapped top-level
heading `# **text**` becomes the plain heading `# text`; any other heading
line is kept as its stripped form. -/
def normHead (stripped : String) : String :=
  if strStarts "# **" stripped ∧ strEnds "**" stripped then
    "# " ++ pyStripStar (pyStrip (dropHashes stripped))
  else stripped

/-- Matches `re.match(r"\d+\.\s", s)`: one or more digits, a dot, then a
whitespace character, at the start of the string. -/
def numDotSpace (s : String) : Bool :=
  let l := s.toList
  let ds := l.takeWhile Char.isDigit
  !ds.isEmpty &&
    match l.drop ds.length with
    | '.' :: c :: _ => isPySpace c
    | _ => false

/-- Hanging-indent repair of `_clean_markdown`: a line indented by exactly
three spaces that is not a list item or an ordered-list marker receives one
extra leading space. -/
def repairLine (line : String) : String :=
  let stripped := pyStrip line
  if strStarts "   " line ∧ ¬ strStarts "    " line
      ∧ ¬ strStarts "-" stripped ∧ ¬ strStarts "*" stripped
      ∧ ¬ (numDotSpace stripped = true) then
    " " ++ line
  else line

/-- Admonition labels recognized by `_clean_markdown`. -/
def admonitionLabels : List String := ["note", "warning", "tip", "important"]

/-- Main forward scan of `_clean_markdown`, with an explicit fuel argument
to make the recursion structural (each step consumes at least one input line,
so any fuel of at least the number of remaining lines gives the same result;
see `scanGo_irrel`).  The other arguments mirror the Python locals: the
remaining input lines, the `cleaned` output accumulator, `first_heading_seen`,
the open-fence state (`in_block`, `block_indent`, `block_char`, `block_len`,
`block_info` as an `Option FenceInfo`), the buffered block lines, and
`skip_system_block`.  The terminal case performs the unterminated-fence
flush. -/
def scanGo : Nat → List String → List String → Bool → Option FenceInfo → List String → Bool → List String
  | _, [], cleaned, _, blk, buffer, _ =>
    (match blk with
     | none => cleaned
     | some b => cleaned ++ [b.indent ++ tildes b.flen ++ b.info] ++ buffer)
  | 0, _ :: _, cleaned, _, blk, buffer, _ =>
    (match blk with
     | none => cleaned
     | some b => cleaned ++ [b.indent ++ tildes b.flen ++ b.info] ++ buffer)
  | fuel + 1, line :: rest, cleaned, fh, blk, buffer, skip =>
    if skip then
      (if pyStrip line = "" then scanGo fuel rest cleaned fh blk buffer false
       else scanGo fuel rest cleaned fh blk buffer true)
    else if strStarts "System Message:" (pyStrip line) then
      scanGo fuel rest cleaned fh blk buffer true
    else
      match blk with
      | some b =>
        (match parseFence line with
         | some f =>
           if f.ch = b.ch ∧ f.flen = b.flen then
             let req := requiredLen b.flen buffer
             scanGo fuel rest
               (cleaned ++ [b.indent ++ tildes req ++ b.info] ++ buffer
                 ++ [b.indent ++ tildes req])
               fh none [] skip
           else scanGo fuel rest cleaned fh (some b) (buffer ++ [fixLine line]) skip
         | none => scanGo fuel rest cleaned fh (some b) (buffer ++ [fixLine line]) skip)
      | none =>
        match parseFence line with
        | some f => scanGo fuel rest cleaned fh (some f) [] skip
        | none =>
          let stripped := pyStrip line
          if strStarts "#" stripped then
            let h0 := normHead stripped
            if strStarts "# " h0 then
              (if fh then scanGo fuel rest (cleaned ++ ["## " ++ strDrop h0 2]) true blk buffer skip
               else scanGo fuel rest (cleaned ++ [h0]) true blk buffer skip)
            else scanGo fuel rest (cleaned ++ [h0]) fh blk buffer skip
          else if pyLower stripped ∈ admonitionLabels then
            let label := pyCapitalize stripped
            let rest1 := rest.dropWhile (fun l => pyStrip l == "")
            let captured := rest1.takeWhile (fun l => pyStrip l != "")
            let rest2 := rest1.dropWhile (fun l => pyStrip l != "")
            scanGo fuel rest2
              (cleaned ++ ["> **" ++ label ++ ":**"]
                ++ captured.map (fun l => "> " ++ l) ++ [""])
              fh blk buffer skip
          else
            scanGo fuel rest (cleaned ++ [repairLine line]) fh blk buffer skip

/-- Main forward scan of `_clean_markdown` (fuel instantiated). -/
def scanLines (lines cleaned : List String) (fh : Bool) (blk : Option FenceInfo)
    (buffer : List String) (skip : Bool) : List String :=
  scanGo lines.length lines cleaned fh blk buffer skip

/-- Diagnostic notice about the missing csv lexer filtered by
`_clean_markdown`. -/
def csvNotice : String := "Cannot analyze code. No Pygments lexer found for \"csv\"."

/-- Final filter pass of `_clean_markdown`: drops any line containing
`System Message:` together with all following lines up to (and including)
the next blank line, and drops lines containing the two known diagnostic
notices. -/
def finalFilter (skip : Bool) : List String → List String
  | [] => []
  | line :: rest =>
    if skip then
      (if pyStrip line = "" then finalFilter false rest else finalFilter true rest)
    else if containsSub "System Message:" line then finalFilter true rest
    else if containsSub "Unexpected indentation." line then finalFilter false rest
    else if containsSub csvNotice line then finalFilter false rest
    else line :: finalFilter false rest

/-- Line-level core of `_clean_markdown`: the forward scan followed by the
noise filter, on an input already split into lines. -/
def cleanMarkdownLines (lines : List String) : List String :=
  finalFilter false (scanLines lines [] false none [] false)

/-- Translation of `NotebookTransformer._clean_markdown`. -/
def clean_markdown (text : String) : String :=
  pyStrip (joinNL (cleanMarkdownLines (pySplitlines text))) ++ "\n"

/-- Conjunction of the three noise-freeness conditions checked by the final
filter pass of `_clean_markdown`. -/
def noiseFreeB (l : String) : Bool :=
  !containsSub "System Message:" l && !containsSub "Unexpected indentation." l
    && !containsSub csvNotice l

/-! ## Notebook document model

Notebook JSON as manipulated by the transformer: a cell has a type, a
source (either one string or a list of strings, as the Python code
distinguishes with `isinstance`), a metadata mapping (of which only the
`tags` entry is touched by any transform; `none` models an absent key),
an output list and an execution counter.  Only the notebook-level metadata
entries the code touches (`kernelspec`, `rges_sync`) are modelled. -/

/-- Cell source: Python stores either a plain string or a list of lines. -/
inductive SrcVal where
  | str (s : String)
  | list (lines : List String)
deriving DecidableEq, Repr

/-- Full text of a source value (`"".join(source)` for lists). -/
def SrcVal.text : SrcVal → String
  | .str s => s
  | .list ls => joinAll ls

/-- Cell metadata: only the `tags` key is relevant to the transforms. -/
structure CellMeta where
  tags : Option (List String)
deriving DecidableEq, Repr

/-- One notebook cell. -/
structure Cell where
  cell_type : String
  source : SrcVal
  metadata : CellMeta
  outputs : List String
  execution_count : Option Int
deriving DecidableEq, Repr

/-- Notebook kernelspec metadata (fields touched by `_record_metadata`). -/
structure KernelSpec where
  name : String
  display_name : String
  version : Option String
deriving DecidableEq, Repr

/-- The `rges_sync` metadata block stamped by `_record_metadata`. -/
structure RgesSync where
  source_id : String
  session : Option String
  audiences : List String
  website_render : Option Bool
  nexus_support : Option Bool
deriving DecidableEq, Repr

/-- Notebook-level metadata. -/
structure NbMeta where
  kernelspec : Option KernelSpec
  rges_sync : Option RgesSync
deriving DecidableEq, Repr

/-- A notebook document. -/
structure Notebook where
  cells : List Cell
  metadata : NbMeta
  nbformat : Nat
  nbformat_minor : Nat
deriving DecidableEq, Repr

/-- Translation of `NotebookTransformer._new_notebook`. -/
def newNotebook : Notebook := ⟨[], ⟨none, none⟩, 4, 5⟩

/-- One manifest entry (the keys read by the transformer; `none` models an
absent key, and `colab_na` models `colab_support == "not_applicable"`). -/
structure Entry where
  id : String
  source_path : String
  nexus_support : Option Bool
  ci_support : Option Bool
  colab_na : Bool
  rrn_transforms : List String
  ci_transforms : List String
  rrn_target : Option String
  upstream_url : Option String
  session : Option String
  audiences : List String
  website_render : Option Bool
deriving DecidableEq, Repr

/-! ## Individual transforms -/

/-- Translation of `NotebookTransformer._clear_outputs`. -/
def _clear_outputs (nb : Notebook) : Notebook :=
  { nb with cells := nb.cells.map (fun c =>
      if c.cell_type = "code" then { c with outputs := [], execution_count := none } else c) }

/-- Translation of `NotebookTransformer._record_metadata`. -/
def _record_metadata (nb : Notebook) (e : Entry) : Notebook :=
  let ks : Option KernelSpec :=
    match nb.metadata.kernelspec with
    | some k =>
      if k.name = "rges-pit-dc" ∨ k.display_name = "rges-pit-dc" then
        some ⟨"rges-pit-dc", "RGES PIT Nexus", some "3.11.14"⟩
      else some k
    | none => none
  { nb with metadata :=
      ⟨ks, some ⟨e.id, e.session, e.audiences, e.website_render, e.nexus_support⟩⟩ }

/-- Regex substitution of `_replace_purple_hr`: replaces every match of
`<hr[^>]*a859e4[^>]*>` (case-insensitively) with `***`.  A match starts at a
case-insensitive `<hr`, its interior is the run of characters other than
`>` when that run contains `a859e4` (case-insensitively) and is followed by
a closing `>`. -/
def hrSubL : List Char → List Char
  | [] => []
  | c :: rest =>
    if listStarts "<hr".toList ((c :: rest).map Char.toLower) then
      let body := ((c :: rest).drop 3).takeWhile (fun d => d ≠ '>')
      let after := ((c :: rest).drop 3).dropWhile (fun d => d ≠ '>')
      if hasSub "a859e4".toList (body.map Char.toLower) ∧ after ≠ [] then
        '*' :: '*' :: '*' :: hrSubL (after.drop 1)
      else c :: hrSubL rest
    else c :: hrSubL rest
termination_by l => l.length
decreasing_by
  · have key : ∀ (l : List Char), (l.dropWhile (fun d => d ≠ '>')).length ≤ l.length := by
      intro l
      induction l with
      | nil => simp [List.dropWhile]
      | cons a l ih =>
        simp only [List.dropWhile]
        split
        · simp only [List.length_cons]; omega
        · simp
    have h1 := key ((c :: rest).drop 3)
    simp only [List.length_drop, List.length_cons] at h1 ⊢
    omega
  · simp
  · simp

/-- Translation of `NotebookTransformer._replace_purple_hr`. -/
def _replace_purple_hr (nb : Notebook) : Notebook :=
  { nb with cells := nb.cells.map (fun c =>
      if c.cell_type ≠ "markdown" then c
      else match c.source with
        | .list ls => { c with source := .list (ls.map (fun l => (hrSubL l.toList).asString)) }
        | .str s => { c with source := .str (hrSubL s.toList).asString }) }

/-- Translation of `NotebookTransformer._remove_cells_with_tag`. -/
def _remove_cells_with_tag (nb : Notebook) (tag : String) : Notebook :=
  { nb with cells := nb.cells.filter (fun c => !((c.metadata.tags.getD []).contains tag)) }

/-- Tries the line-start matcher `m` at every position following a newline
character. -/
def lineStartsGo (m : List Char → Bool) : List Char → Bool
  | [] => false
  | '\n' :: rest => m rest || lineStartsGo m rest
  | _ :: rest => lineStartsGo m rest

/-- Positions after a newline, plus the string start: tries the line-start
matcher `m` at every position where `(?m)^` can anchor. -/
def atLineStarts (m : List Char → Bool) (text : List Char) : Bool :=
  m text || lineStartsGo m text

/-- Python `\w` (ASCII). -/
def isWordChar (c : Char) : Bool := c.isAlphanum || c = '_'

/-- Matcher for `\s*#\s*NEXUS-ONLY\b` starting at the current position
(used under a `(?m)^` anchor). -/
def nexusOnlyAt (l : List Char) : Bool :=
  match l.dropWhile isPySpace with
  | '#' :: rest =>
    let r2 := rest.dropWhile isPySpace
    listStarts "NEXUS-ONLY".toList r2 &&
      (match r2.drop 10 with
       | [] => true
       | c :: _ => !isWordChar c)
  | _ => false

/-- Search for `(?m)^\s*#\s*NEXUS-ONLY\b` in a cell text. -/
def nexusOnlySearch (text : String) : Bool := atLineStarts nexusOnlyAt text.toList

/-- Matcher for `\s*%source\b` starting at the current position. -/
def sourceMagicAt (l : List Char) : Bool :=
  let r := l.dropWhile isPySpace
  listStarts "%source".toList r &&
    (match r.drop 7 with
     | [] => true
     | c :: _ => !isWordChar c)

/-- Search for `(?m)^\s*%source\b` in a cell text. -/
def sourceMagicSearch (text : String) : Bool := atLineStarts sourceMagicAt text.toList

/-- Scan for an occurrence of `kernel-activate` followed by a non-word
boundary. -/
def kernelActivateGo : List Char → Bool
  | [] => false
  | c :: rest =>
    (listStarts "kernel-activate".toList (c :: rest) &&
      (match (c :: rest).drop 15 with
       | [] => true
       | d :: _ => !isWordChar d)) || kernelActivateGo rest

/-- Search for an occurrence of `kernel-activate` with a word boundary
after it, anywhere in a cell text. -/
def kernelActivateSearch (text : String) : Bool := kernelActivateGo text.toList

/-- Per-cell body of `_tag_ci_skip_nexus_only`: a code cell matching one of
the two Nexus-only markers gets a `ci-skip` tag appended to its tag list
(taken as `[]` when absent or not a list) unless already present. -/
def tagCellCi (c : Cell) : Cell :=
  if c.cell_type ≠ "code" then c
  else if !(nexusOnlySearch c.source.text || sourceMagicSearch c.source.text) then c
  else
    let tags := c.metadata.tags.getD []
    let tags := if tags.contains "ci-skip" then tags else tags ++ ["ci-skip"]
    { c with metadata := ⟨some tags⟩ }

/-- Translation of `NotebookTransformer._tag_ci_skip_nexus_only`. -/
def _tag_ci_skip_nexus_only (nb : Notebook) : Notebook :=
  { nb with cells := nb.cells.map tagCellCi }

/-- Keep-predicate of `_remove_nexus_only_cells`: a cell survives when it is
not a code cell, or carries no `nexus-only` tag and matches none of the
three Nexus-only markers. -/
def keepCellCi (c : Cell) : Bool :=
  c.cell_type ≠ "code" ||
    (!(((c.metadata.tags.getD []).contains "nexus-only")) &&
     !nexusOnlySearch c.source.text && !sourceMagicSearch c.source.text &&
     !kernelActivateSearch c.source.text)

/-- Translation of `NotebookTransformer._remove_nexus_only_cells`. -/
def _remove_nexus_only_cells (nb : Notebook) : Notebook :=
  { nb with cells := nb.cells.filter keepCellCi }

/-! ## Footer insertion -/

/-- Start delimiter of the footer region. -/
def startMarker : String := "<!-- Footer Start -->"

/-- End delimiter of the footer region. -/
def endMarker : String := "<!-- Footer End -->"

/-- Substitution core of `FOOTER_PATTERN.sub(repl, s)` for the pattern
`<!-- Footer Start -->.*?<!-- Footer End -->` (DOTALL): repeatedly find the
leftmost start marker, the earliest end marker after it, and replace the
span through the end marker with `repl`.  A fuel argument makes the
recursion structural; any fuel of at least the text length gives the same
result (`footerSubGo_irrel`). -/
def footerSubGo (repl : List Char) : Nat → List Char → List Char
  | 0, s => s
  | fuel + 1, s =>
    match findSubstr startMarker.toList s with
    | none => s
    | some i =>
      let b := s.drop (i + startMarker.toList.length)
      match findSubstr endMarker.toList b with
      | none => s
      | some j =>
        s.take i ++ repl ++ footerSubGo repl fuel (b.drop (j + endMarker.toList.length))

/-- Python `FOOTER_PATTERN.sub(repl, s)` on character lists. -/
def footerSubL (repl s : List Char) : List Char := footerSubGo repl s.length s

/-- Python `FOOTER_PATTERN.sub(repl, s)` on strings. -/
def footerSub (repl s : String) : String := (footerSubL repl.toList s.toList).asString

/-- One pass of `_insert_rrn_footer` over the cell list: rewrite the first
markdown cell whose text contains the start marker (mirroring the
`for`/`break` loop), reporting whether one was found. -/
def insertFooterCells (footer : String) : List Cell → List Cell × Bool
  | [] => ([], false)
  | c :: rest =>
    if c.cell_type = "markdown" ∧ containsSub startMarker c.source.text then
      let newText := footerSub footer c.source.text
      let newSrc : SrcVal :=
        match c.source with
        | .list _ => .list (pySplitlinesKeep newText)
        | .str _ => .str newText
      ({ c with source := newSrc } :: rest, true)
    else
      let r := insertFooterCells footer rest
      (c :: r.1, r.2)

/-- Translation of `NotebookTransformer._insert_rrn_footer`; the footer
template content (loaded once from `RRN/footer.md` at construction) is a
parameter.  When no markdown cell contains the start marker a new markdown
cell holding the template is appended (the Python dict literal has no
`outputs`/`execution_count` keys; the model uses the empty defaults). -/
def _insert_rrn_footer (footer : String) (nb : Notebook) : Notebook :=
  if footer = "" then nb
  else
    let r := insertFooterCells footer nb.cells
    if r.2 then { nb with cells := r.1 }
    else { nb with cells := nb.cells ++ [⟨"markdown", .list (pySplitlinesKeep footer), ⟨none⟩, [], none⟩] }

/-- Translation of `NotebookTransformer._insert_rrn_footer_text` (the
text-mode footer transform used for raw `.md` entries). -/
def _insert_rrn_footer_text (footer content : String) : String :=
  if footer = "" then content
  else if containsSub startMarker content then footerSub footer content
  else content ++ "\n\n" ++ footer

/-! ## Required-section warnings -/

/-- The `_REQUIRED_SECTION_KEYWORDS` table. -/
def requiredSectionKeywords : List (String × List String) :=
  [("Learning Goals", ["learning goal"]),
   ("Introduction", ["introduction"]),
   ("Exercises", ["exercise"]),
   ("Additional Resources", ["additional resource"]),
   ("About this Notebook", ["about this notebook"])]

/-- Heading lines collected by `_warn_required_sections`: every line of a
markdown cell that, stripped and lowercased, begins with `#`. -/
def headingsOf (nb : Notebook) : List String :=
  (nb.cells.filter (fun c => c.cell_type = "markdown")).flatMap (fun c =>
    ((pySplitlines c.source.text).map (fun l => pyLower (pyStrip l))).filter
      (fun l => strStarts "#" l))

/-- Missing section labels reported (as a warning on stderr) by
`_warn_required_sections`; the notebook itself is never modified. -/
def missingSections (nb : Notebook) : List String :=
  (requiredSectionKeywords.filter (fun kw =>
      !(headingsOf nb).any (fun h => kw.2.any (fun k => containsSub k h)))).map (·.1)

/-! ## Transform dispatch -/

/-- Translation of `NotebookTransformer._apply_transform`.  `footer` is the
footer template loaded at construction; `convert` abstracts
`_convert_rst_to_notebook`, whose behaviour depends on the external
`docutils`/`markdownify` converters and the file system.
`_warn_required_sections` only prints; the document is returned unchanged.
An unknown name raises `ValueError`, modelled as `Except.error`. -/
def _apply_transform (footer : String) (convert : Notebook → Entry → Except String Notebook)
    (t : String) (nb : Notebook) (e : Entry) : Except String Notebook :=
  if t = "clear_outputs" then .ok (_clear_outputs nb)
  else if t = "record_metadata" then .ok (_record_metadata nb e)
  else if t = "replace_purple_hr" then .ok (_replace_purple_hr nb)
  else if t = "remove_colab_only" then .ok (_remove_cells_with_tag nb "colab-only")
  else if t = "tag_ci_skip_nexus_only" then .ok (_tag_ci_skip_nexus_only nb)
  else if t = "remove_nexus_only_cells" then .ok (_remove_nexus_only_cells nb)
  else if t = "insert_rrn_footer" ∨ t = "footer" then .ok (_insert_rrn_footer footer nb)
  else if t = "warn_required_sections" then .ok nb
  else if t = "convert_rst_to_notebook" then convert nb e
  else .error ("Unknown transform '" ++ t ++ "'")

/-- Translation of `NotebookTransformer._apply_text_transform`.
`injectWeb` abstracts `_inject_web_content` (it reads other repository
files).  The Python function never raises: unsupported names print a
warning to stderr and return the content unchanged. -/
def _apply_text_transform (injectWeb : String → String) (footer : String)
    (t : String) (content : String) : Except String String :=
  if t = "build_like_website" then .ok (injectWeb content)
  else if t = "footer" ∨ t = "insert_rrn_footer" then .ok (_insert_rrn_footer_text footer content)
  else if t = "clear_outputs" then .ok content
  else if t = "record_metadata" then .ok content
  else if t = "remove_colab_only" then .ok content
  else if t = "replace_purple_hr" then
    .ok (strReplace "<hr style=\"border:2px solid #a859e4\">" "***" content)
  else if t = "warn_required_sections" then .ok content
  else .ok content

/-! ## Build orchestrator

The orchestrator reads and writes files; the file system is modelled as an
association list from path strings to records of a modification time and the
(already deserialized) content.  Writing a notebook or text file stamps the
`now` parameter as its modification time; `shutil.copy2` preserves the
source's time.  The network fetch of `_sync_source` is abstracted by a
`fetch` oracle mapping the upstream URL to the file record the source file
holds afterwards.  Side effects other than file-system updates are recorded
in an event trace: `sync` for a source refresh, `applied` for a transform
application, `wrote` for an artifact write. -/

/-- Content of a file: a deserialized notebook, raw text, or other bytes. -/
inductive FileData where
  | nb (n : Notebook)
  | text (s : String)
  | raw
deriving DecidableEq, Repr

/-- A file record: modification time and content. -/
structure FileInfo where
  mtime : Int
  data : FileData
deriving DecidableEq, Repr

/-- The file system: an association list from paths to file records. -/
def FS : Type := List (String × FileInfo)

instance : DecidableEq FS := by unfold FS; infer_instance

/-- Look up a path (`Path.exists` / `Path.stat`). -/
def fsGet : FS → String → Option FileInfo
  | [], _ => none
  | (q, fi) :: rest, p => if p = q then some fi else fsGet rest p

/-- Write a path, replacing any existing record. -/
def fsSet : FS → String → FileInfo → FS
  | [], p, fi => [(p, fi)]
  | (q, g) :: rest, p, fi => if p = q then (p, fi) :: rest else (q, g) :: fsSet rest p fi

/-- Events observable during a build. -/
inductive Ev where
  | sync (url : String) (path : String)
  | applied (t : String) (id : String)
  | wrote (path : String)
deriving DecidableEq, Repr

/-- Parameters of one `NotebookTransformer` build: the footer template
content, the abstracted RST converter, the abstracted web-content injector,
the network-fetch oracle, and the current time stamped on written files. -/
structure BuildParams where
  footer : String
  convert : Notebook → Entry → Except String Notebook
  injectWeb : String → String
  fetch : String → FileInfo
  now : Int

/-- The manifest: `notebooks`, `scripts` and `other` entry lists. -/
structure Manifest where
  notebooks : List Entry
  scripts : List Entry
  other : List Entry

/-- Default transform list for `rrn` notebook entries. -/
def rrnDefaultTransforms : List String :=
  ["clear_outputs", "record_metadata", "insert_rrn_footer", "warn_required_sections"]

/-- Default transform list for `ci` notebook entries. -/
def ciDefaultTransforms : List String :=
  ["clear_outputs", "record_metadata", "replace_purple_hr", "remove_nexus_only_cells",
   "warn_required_sections"]

/-- Effective `rrn` transform list of an entry
(`entry.get("rrn_transforms") or [...]`: an absent or empty list selects
the defaults). -/
def rrnTransformsOf (e : Entry) : List String :=
  if e.rrn_transforms.isEmpty then rrnDefaultTransforms else e.rrn_transforms

/-- Effective `ci` transform list of an entry. -/
def ciTransformsOf (e : Entry) : List String :=
  if e.ci_transforms.isEmpty then ciDefaultTransforms else e.ci_transforms

/-- Translation of `NotebookTransformer._sync_source`: fetch the upstream
URL and overwrite the entry's source file.  Returns the updated file system
and the sync event. -/
def _sync_source (P : BuildParams) (fs : FS) (e : Entry) : Except String (FS × List Ev) :=
  match e.upstream_url with
  | none => .error "Sync requires both 'upstream_url' and 'source_path'."
  | some url =>
    if url = "" ∨ e.source_path = "" then
      .error "Sync requires both 'upstream_url' and 'source_path'."
    else
      .ok (fsSet fs e.source_path (P.fetch url), [Ev.sync url e.source_path])

/-- Apply a transform list in order (the plain loop of
`_process_script_entry` and `build_ci`), recording one `applied` event per
transform. -/
def applyTransformList (P : BuildParams) (e : Entry) : List String → Notebook →
    Except String (Notebook × List Ev)
  | [], nb => .ok (nb, [])
  | t :: rest, nb =>
    match _apply_transform P.footer P.convert t nb e with
    | .error msg => .error msg
    | .ok nb1 =>
      match applyTransformList P e rest nb1 with
      | .error msg => .error msg
      | .ok (nb2, evs) => .ok (nb2, Ev.applied t e.id :: evs)

/-- Apply a transform list skipping `"sync"` (the notebook loop of
`build_rrn`). -/
def applyTransformListSkipSync (P : BuildParams) (e : Entry) : List String → Notebook →
    Except String (Notebook × List Ev)
  | [], nb => .ok (nb, [])
  | t :: rest, nb =>
    if t = "sync" then applyTransformListSkipSync P e rest nb
    else
      match _apply_transform P.footer P.convert t nb e with
      | .error msg => .error msg
      | .ok nb1 =>
        match applyTransformListSkipSync P e rest nb1 with
        | .error msg => .error msg
        | .ok (nb2, evs) => .ok (nb2, Ev.applied t e.id :: evs)

/-- Load a notebook from the file system
(`_load_notebook`; a missing file is the caller's `FileNotFoundError`, a
non-notebook content a JSON decoding error). -/
def loadNotebook (fs : FS) (path : String) (missingMsg : String) : Except String Notebook :=
  match fsGet fs path with
  | none => .error missingMsg
  | some fi =>
    match fi.data with
    | .nb n => .ok n
    | _ => .error ("invalid notebook JSON: " ++ path)

/-- Body of the notebook loop of `build_rrn` for one eligible entry:
optional source sync, staleness check, load (or synthesize for
`convert_rst_to_notebook`), implicit `tag_ci_skip_nexus_only`, transform
application, artifact write.  Returns the updated file system, the events,
and the written destination (`none` when skipped as up to date). -/
def processNotebookRrn (P : BuildParams) (force : Bool) (fs : FS) (e : Entry) :
    Except String (FS × List Ev × Option String) :=
  let transforms := rrnTransformsOf e
  let afterSync : Except String (FS × List Ev) :=
    if "sync" ∈ transforms then _sync_source P fs e else .ok (fs, [])
  match afterSync with
  | .error msg => .error msg
  | .ok (fs1, evs1) =>
    let dest := "RRN/build/" ++ e.id ++ ".ipynb"
    let skip : Bool :=
      match fsGet fs1 dest, fsGet fs1 e.source_path with
      | some d, some s => !force && decide (s.mtime < d.mtime)
      | some _, none => false
      | none, _ => false
    if skip then .ok (fs1, evs1, none)
    else
      let loaded : Except String Notebook :=
        if "convert_rst_to_notebook" ∈ transforms then .ok newNotebook
        else loadNotebook fs1 e.source_path ("Source notebook not found: " ++ e.source_path)
      match loaded with
      | .error msg => .error msg
      | .ok nb0 =>
        let transforms2 :=
          if "tag_ci_skip_nexus_only" ∈ transforms then transforms
          else "tag_ci_skip_nexus_only" :: transforms
        match applyTransformListSkipSync P e transforms2 nb0 with
        | .error msg => .error msg
        | .ok (nb1, evs2) =>
          .ok (fsSet fs1 dest ⟨P.now, .nb nb1⟩, evs1 ++ evs2 ++ [Ev.wrote dest], some dest)

/-- Translation of `NotebookTransformer._process_script_entry`.  The
returned destination path is appended to the written list by the caller
even when the staleness check skips the copy. -/
def processScriptRrn (P : BuildParams) (force : Bool) (fs : FS) (e : Entry) :
    Except String (FS × List Ev × String) :=
  match fsGet fs e.source_path with
  | none => .error ("Source script not found: " ++ e.source_path)
  | some sfi =>
    let destName :=
      match e.rrn_target with
      | some t => if t = "" then e.id ++ ".ipynb" else basename t
      | none => e.id ++ ".ipynb"
    let dest := "RRN/build/" ++ destName
    let skip : Bool :=
      match fsGet fs dest with
      | some d => !force && decide (sfi.mtime < d.mtime)
      | none => false
    if skip then .ok (fs, [], dest)
    else if pyLower (suffixOf destName) ≠ ".ipynb" then
      .ok (fsSet fs dest ⟨sfi.mtime, sfi.data⟩, [Ev.wrote dest], dest)
    else
      match sfi.data with
      | .text content =>
        let nb0 : Notebook :=
          { newNotebook with
              cells := [⟨"code", .list (pySplitlinesKeep content), ⟨none⟩, [], none⟩] }
        (match applyTransformList P e e.rrn_transforms nb0 with
         | .error msg => .error msg
         | .ok (nb1, evs) =>
           .ok (fsSet fs dest ⟨P.now, .nb nb1⟩, evs ++ [Ev.wrote dest], dest))
      | _ => .error ("source is not text: " ++ e.source_path)

/-- Translation of `NotebookTransformer._process_other_entry`. -/
def processOtherRrn (P : BuildParams) (force : Bool) (fs : FS) (e : Entry) :
    Except String (FS × List Ev × String) :=
  match fsGet fs e.source_path with
  | none => .error ("Source file not found: " ++ e.source_path)
  | some sfi =>
    let destName :=
      match e.rrn_target with
      | some t => if t = "" then e.id ++ suffixOf (basename e.source_path) else basename t
      | none => e.id ++ suffixOf (basename e.source_path)
    let dest := "RRN/build/" ++ destName
    let skip : Bool :=
      match fsGet fs dest with
      | some d => !force && decide (sfi.mtime < d.mtime)
      | none => false
    if skip then .ok (fs, [], dest)
    else if pyLower (suffixOf (basename e.source_path)) = ".md" ∧ ¬ e.rrn_transforms.isEmpty then
      match sfi.data with
      | .text content =>
        let folded := e.rrn_transforms.foldl
          (fun (acc : Except String String) t =>
            match acc with
            | .error msg => .error msg
            | .ok s => _apply_text_transform P.injectWeb P.footer t s)
          (.ok content)
        (match folded with
         | .error msg => .error msg
         | .ok content1 => .ok (fsSet fs dest ⟨P.now, .text content1⟩, [Ev.wrote dest], dest))
      | _ => .error ("source is not text: " ++ e.source_path)
    else
      .ok (fsSet fs dest ⟨sfi.mtime, sfi.data⟩, [Ev.wrote dest], dest)

/-- Python truthiness of the `--only` id filter: an empty iterable is
falsy, so it imposes no restriction. -/
def idExcluded (ids : Option (List String)) (i : String) : Bool :=
  match ids with
  | none => false
  | some l => !l.isEmpty && !l.contains i

/-- The notebook loop of `build_rrn`. -/
def buildRrnNotebooks (P : BuildParams) (ids : Option (List String)) (force : Bool) :
    FS → List Entry → Except String (FS × List String × List Ev)
  | fs, [] => .ok (fs, [], [])
  | fs, e :: rest =>
    if idExcluded ids e.id then buildRrnNotebooks P ids force fs rest
    else if !(e.nexus_support.getD false) then buildRrnNotebooks P ids force fs rest
    else
      match processNotebookRrn P force fs e with
      | .error msg => .error msg
      | .ok (fs1, evs1, w) =>
        match buildRrnNotebooks P ids force fs1 rest with
        | .error msg => .error msg
        | .ok (fs2, ws, evs2) => .ok (fs2, w.toList ++ ws, evs1 ++ evs2)

/-- The script loop of `build_rrn` (every processed entry's destination is
appended to the written list, even when skipped as up to date). -/
def buildRrnScripts (P : BuildParams) (ids : Option (List String)) (force : Bool) :
    FS → List Entry → Except String (FS × List String × List Ev)
  | fs, [] => .ok (fs, [], [])
  | fs, e :: rest =>
    if idExcluded ids e.id then buildRrnScripts P ids force fs rest
    else if !(e.nexus_support.getD false) then buildRrnScripts P ids force fs rest
    else
      match processScriptRrn P force fs e with
      | .error msg => .error msg
      | .ok (fs1, evs1, w) =>
        match buildRrnScripts P ids force fs1 rest with
        | .error msg => .error msg
        | .ok (fs2, ws, evs2) => .ok (fs2, w :: ws, evs1 ++ evs2)

/-- The `other` loop of `build_rrn`. -/
def buildRrnOther (P : BuildParams) (ids : Option (List String)) (force : Bool) :
    FS → List Entry → Except String (FS × List String × List Ev)
  | fs, [] => .ok (fs, [], [])
  | fs, e :: rest =>
    if idExcluded ids e.id then buildRrnOther P ids force fs rest
    else if !(e.nexus_support.getD false) then buildRrnOther P ids force fs rest
    else
      match processOtherRrn P force fs e with
      | .error msg => .error msg
      | .ok (fs1, evs1, w) =>
        match buildRrnOther P ids force fs1 rest with
        | .error msg => .error msg
        | .ok (fs2, ws, evs2) => .ok (fs2, w :: ws, evs1 ++ evs2)

/-- Translation of `NotebookTransformer.build_rrn`: the three manifest
loops in order; the result is the written-path list, the final file system
and the event trace. -/
def build_rrn (P : BuildParams) (m : Manifest) (ids : Option (List String)) (force : Bool)
    (fs : FS) : Except String (List String × FS × List Ev) :=
  match buildRrnNotebooks P ids force fs m.notebooks with
  | .error msg => .error msg
  | .ok (fs1, ws1, evs1) =>
    match buildRrnScripts P ids force fs1 m.scripts with
    | .error msg => .error msg
    | .ok (fs2, ws2, evs2) =>
      match buildRrnOther P ids force fs2 m.other with
      | .error msg => .error msg
      | .ok (fs3, ws3, evs3) => .ok (ws1 ++ ws2 ++ ws3, fs3, evs1 ++ evs2 ++ evs3)

/-- Body of the `build_ci` loop for one entry that passed the id filter and
the eligibility rules. -/
def processNotebookCi (P : BuildParams) (force : Bool) (fs : FS) (e : Entry) :
    Except String (FS × List Ev × Option String) :=
  match fsGet fs e.source_path with
  | none => .error ("Source notebook not found: " ++ e.source_path)
  | some sfi =>
    let dest := "RRN/ci_build/" ++ e.id ++ ".ipynb"
    let skip : Bool :=
      match fsGet fs dest with
      | some d => !force && decide (sfi.mtime < d.mtime)
      | none => false
    if skip then .ok (fs, [], none)
    else
      match sfi.data with
      | .nb nb0 =>
        (match applyTransformList P e (ciTransformsOf e) nb0 with
         | .error msg => .error msg
         | .ok (nb1, evs) =>
           .ok (fsSet fs dest ⟨P.now, .nb nb1⟩, evs ++ [Ev.wrote dest], some dest))
      | _ => .error ("invalid notebook JSON: " ++ e.source_path)

/-- The notebook loop of `build_ci` (entries with `ci_support == False` or
`colab_support == "not_applicable"` are ineligible). -/
def buildCiNotebooks (P : BuildParams) (ids : Option (List String)) (force : Bool) :
    FS → List Entry → Except String (List String × FS × List Ev)
  | fs, [] => .ok ([], fs, [])
  | fs, e :: rest =>
    if idExcluded ids e.id then buildCiNotebooks P ids force fs rest
    else if e.ci_support = some false then buildCiNotebooks P ids force fs rest
    else if e.colab_na then buildCiNotebooks P ids force fs rest
    else
      match processNotebookCi P force fs e with
      | .error msg => .error msg
      | .ok (fs1, evs1, w) =>
        match buildCiNotebooks P ids force fs1 rest with
        | .error msg => .error msg
        | .ok (ws, fs2, evs2) => .ok (w.toList ++ ws, fs2, evs1 ++ evs2)

/-- Translation of `NotebookTransformer.build_ci`. -/
def build_ci (P : BuildParams) (m : Manifest) (ids : Option (List String)) (force : Bool)
    (fs : FS) : Except String (List String × FS × List Ev) :=
  buildCiNotebooks P ids force fs m.notebooks

/-- Decides whether a line is a fence line of the given character and exact
length. -/
def isFenceOf (ch : Char) (n : Nat) (l : String) : Bool :=
  match parseFence l with
  | some f => f.ch = ch && f.flen = n
  | none => false

/-- Decides whether a line is a fence line of the given exact length. -/
def isFenceLen (n : Nat) (l : String) : Bool :=
  match parseFence l with
  | some f => f.flen = n
  | none => false

/-- Decides whether a line is a fence line of length at most `k` or not a
fence line at all. -/
def fenceLenAtMost (k : Nat) (l : String) : Bool :=
  match parseFence l with
  | some f => f.flen ≤ k
  | none => true

/-- Decides that a line engages none of the scanner's special modes other
than heading handling: it is not a fence line, not an admonition label, and
contains none of the filtered diagnostic substrings. -/
def tameLine (l : String) : Bool :=
  (parseFence l).isNone
    && !(decide (pyLower (pyStrip l) ∈ admonitionLabels))
    && noiseFreeB l

/-- Splits a text at newline characters only (the positions where the
multiline anchor `(?m)^` of the `re` module can match after). -/
def splitNL (acc : List Char) : List Char → List (List Char)
  | [] => [acc.reverse]
  | '\n' :: rest => acc.reverse :: splitNL [] rest
  | c :: rest => splitNL (c :: acc) rest

/-- The newline-delimited lines of a string (with trailing empty segment,
as in `s.split("\n")`). -/
def linesNL (s : String) : List String := (splitNL [] s.toList).map List.asString

/-! ## Theorems -/

theorem lenDropWhileLe (p : α → Bool) (l : List α) : (l.dropWhile p).length ≤ l.length := by
  induction l with
  | nil => simp [List.dropWhile]
  | cons a l ih =>
    simp only [List.dropWhile]
    cases p a <;> simp <;> omega

theorem scanGo_irrel (n : Nat) : ∀ (m : Nat) (lines cleaned : List String) (fh : Bool)
    (blk : Option FenceInfo) (buffer : List String) (skip : Bool),
    lines.length ≤ n → lines.length ≤ m →
    scanGo n lines cleaned fh blk buffer skip = scanGo m lines cleaned fh blk buffer skip := by
  induction n with
  | zero =>
    intro m lines cleaned fh blk buffer skip hn hm
    have hnil : lines = [] := List.eq_nil_of_length_eq_zero (Nat.le_zero.mp hn)
    subst hnil
    cases m <;> rfl
  | succ n ih =>
    intro m lines cleaned fh blk buffer skip hn hm
    cases lines with
    | nil => cases m <;> rfl
    | cons line rest =>
      cases m with
      | zero => simp at hm
      | succ m =>
        have hr : rest.length ≤ n := by simp only [List.length_cons] at hn; omega
        have hrm : rest.length ≤ m := by simp only [List.length_cons] at hm; omega
        have hr2 : (((rest.dropWhile (fun l => pyStrip l == "")).dropWhile
            (fun l => pyStrip l != ""))).length ≤ rest.length :=
          le_trans (lenDropWhileLe _ _) (lenDropWhileLe _ _)
        simp only [scanGo]
        repeat' split
        all_goals first
          | rfl
          | exact ih m rest _ _ _ _ _ hr hrm
          | exact ih m _ _ _ _ _ _ (le_trans hr2 hr) (le_trans hr2 hrm)

theorem scanLines_nil (cleaned : List String) (fh : Bool) (blk : Option FenceInfo)
    (buffer : List String) (skip : Bool) :
    scanLines [] cleaned fh blk buffer skip
      = (match blk with
         | none => cleaned
         | some b => cleaned ++ [b.indent ++ tildes b.flen ++ b.info] ++ buffer) := rfl

theorem scanLines_skip_blank (line : String) (rest cleaned : List String) (fh : Bool)
    (blk : Option FenceInfo) (buffer : List String) (h : pyStrip line = "") :
    scanLines (line :: rest) cleaned fh blk buffer true
      = scanLines rest cleaned fh blk buffer false := by
  simp only [scanLines, List.length_cons, scanGo, h, if_true, if_pos]

theorem scanLines_skip_stay (line : String) (rest cleaned : List String) (fh : Bool)
    (blk : Option FenceInfo) (buffer : List String) (h : ¬ pyStrip line = "") :
    scanLines (line :: rest) cleaned fh blk buffer true
      = scanLines rest cleaned fh blk buffer true := by
  simp only [scanLines, List.length_cons, scanGo, h, if_true, if_false, if_neg]

theorem scanLines_sys (line : String) (rest cleaned : List String) (fh : Bool)
    (blk : Option FenceInfo) (buffer : List String)
    (h : strStarts "System Message:" (pyStrip line) = true) :
    scanLines (line :: rest) cleaned fh blk buffer false
      = scanLines rest cleaned fh blk buffer true := by
  simp only [scanLines, List.length_cons, scanGo, h, Bool.false_eq_true, if_false, if_true]

theorem scanLines_close (line : String) (rest cleaned : List String) (fh : Bool)
    (b : FenceInfo) (buffer : List String) (f : FenceInfo)
    (hs : ¬ strStarts "System Message:" (pyStrip line) = true)
    (hf : parseFence line = some f) (hm : f.ch = b.ch ∧ f.flen = b.flen) :
    scanLines (line :: rest) cleaned fh (some b) buffer false
      = scanLines rest
          (cleaned ++ [b.indent ++ tildes (requiredLen b.flen buffer) ++ b.info] ++ buffer
            ++ [b.indent ++ tildes (requiredLen b.flen buffer)])
          fh none [] false := by
  simp only [scanLines, List.length_cons, scanGo, hs, hf, hm, Bool.false_eq_true, if_false,
    if_true, and_self]

theorem scanLines_buffer_fence (line : String) (rest cleaned : List String) (fh : Bool)
    (b : FenceInfo) (buffer : List String) (f : FenceInfo)
    (hs : ¬ strStarts "System Message:" (pyStrip line) = true)
    (hf : parseFence line = some f) (hm : ¬ (f.ch = b.ch ∧ f.flen = b.flen)) :
    scanLines (line :: rest) cleaned fh (some b) buffer false
      = scanLines rest cleaned fh (some b) (buffer ++ [fixLine line]) false := by
  simp only [scanLines, List.length_cons, scanGo, hs, hf, hm, Bool.false_eq_true, if_false]

theorem scanLines_buffer_plain (line : String) (rest cleaned : List String) (fh : Bool)
    (b : FenceInfo) (buffer : List String)
    (hs : ¬ strStarts "System Message:" (pyStrip line) = true)
    (hf : parseFence line = none) :
    scanLines (line :: rest) cleaned fh (some b) buffer false
      = scanLines rest cleaned fh (some b) (buffer ++ [fixLine line]) false := by
  simp only [scanLines, List.length_cons, scanGo, hs, hf, Bool.false_eq_true, if_false]

theorem scanLines_open (line : String) (rest cleaned : List String) (fh : Bool)
    (buffer : List String) (f : FenceInfo)
    (hs : ¬ strStarts "System Message:" (pyStrip line) = true)
    (hf : parseFence line = some f) :
    scanLines (line :: rest) cleaned fh none buffer false
      = scanLines rest cleaned fh (some f) [] false := by
  simp only [scanLines, List.length_cons, scanGo, hs, hf, Bool.false_eq_true, if_false]

theorem scanLines_heading (line : String) (rest cleaned : List String) (fh : Bool)
    (buffer : List String)
    (hs : ¬ strStarts "System Message:" (pyStrip line) = true)
    (hf : parseFence line = none)
    (hh : strStarts "#" (pyStrip line) = true) :
    scanLines (line :: rest) cleaned fh none buffer false
      = (if strStarts "# " (normHead (pyStrip line)) then
           (if fh then
              scanLines rest (cleaned ++ ["## " ++ strDrop (normHead (pyStrip line)) 2]) true none buffer false
            else scanLines rest (cleaned ++ [normHead (pyStrip line)]) true none buffer false)
         else scanLines rest (cleaned ++ [normHead (pyStrip line)]) fh none buffer false) := by
  simp only [scanLines, List.length_cons, scanGo, hs, hf, hh, Bool.false_eq_true, if_false,
    if_true]

theorem scanLines_admon (line : String) (rest cleaned : List String) (fh : Bool)
    (buffer : List String)
    (hs : ¬ strStarts "System Message:" (pyStrip line) = true)
    (hf : parseFence line = none)
    (hh : ¬ strStarts "#" (pyStrip line) = true)
    (ha : pyLower (pyStrip line) ∈ admonitionLabels) :
    scanLines (line :: rest) cleaned fh none buffer false
      = scanLines ((rest.dropWhile (fun l => pyStrip l == "")).dropWhile (fun l => pyStrip l != ""))
          (cleaned ++ ["> **" ++ pyCapitalize (pyStrip line) ++ ":**"]
            ++ ((rest.dropWhile (fun l => pyStrip l == "")).takeWhile (fun l => pyStrip l != "")).map
                (fun l => "> " ++ l)
            ++ [""])
          fh none buffer false := by
  have hr2 : (((rest.dropWhile (fun l => pyStrip l == "")).dropWhile
      (fun l => pyStrip l != ""))).length ≤ rest.length :=
    le_trans (lenDropWhileLe _ _) (lenDropWhileLe _ _)
  simp only [scanLines, List.length_cons, scanGo, hs, hf, hh, ha, Bool.false_eq_true, if_false,
    if_true]
  exact scanGo_irrel rest.length _ _ _ _ _ _ _ hr2 le_rfl

theorem scanLines_plain (line : String) (rest cleaned : List String) (fh : Bool)
    (buffer : List String)
    (hs : ¬ strStarts "System Message:" (pyStrip line) = true)
    (hf : parseFence line = none)
    (hh : ¬ strStarts "#" (pyStrip line) = true)
    (ha : ¬ pyLower (pyStrip line) ∈ admonitionLabels) :
    scanLines (line :: rest) cleaned fh none buffer false
      = scanLines rest (cleaned ++ [repairLine line]) fh none buffer false := by
  simp only [scanLines, List.length_cons, scanGo, hs, hf, hh, ha, Bool.false_eq_true, if_false]

theorem hasSub_nil_pat (t : List Char) : hasSub [] t = true := by
  cases t <;> simp [hasSub, listStarts]

theorem listStarts_hasSub (p l : List Char) (h : listStarts p l = true) : hasSub p l = true := by
  cases l with
  | nil =>
    cases p with
    | nil => simp [hasSub]
    | cons a as => simp [listStarts] at h
  | cons c rest => simp [hasSub, h]

theorem listStarts_append (p x y : List Char) (h : listStarts p x = true) :
    listStarts p (x ++ y) = true := by
  induction p generalizing x with
  | nil => simp [listStarts]
  | cons a as ih =>
    cases x with
    | nil => simp [listStarts] at h
    | cons c cs =>
      simp only [listStarts, Bool.and_eq_true] at h
      simp only [List.cons_append, listStarts, Bool.and_eq_true]
      exact ⟨h.1, ih cs h.2⟩

theorem hasSub_append_left (p x y : List Char) (h : hasSub p x = true) :
    hasSub p (x ++ y) = true := by
  induction x with
  | nil =>
    simp only [hasSub, List.isEmpty_iff] at h
    subst h
    simpa using hasSub_nil_pat y
  | cons c cs ih =>
    simp only [hasSub, Bool.or_eq_true] at h
    rcases h with h | h
    · simp only [List.cons_append, hasSub, Bool.or_eq_true]
      exact Or.inl (listStarts_append p (c :: cs) y h)
    · simp only [List.cons_append, hasSub, Bool.or_eq_true]
      exact Or.inr (ih h)

theorem hasSub_dropWhile (p : List Char) (q : Char → Bool) (l : List Char)
    (h : hasSub p (l.dropWhile q) = true) : hasSub p l = true := by
  induction l with
  | nil => simpa [List.dropWhile] using h
  | cons a rest ih =>
    simp only [List.dropWhile] at h
    cases hq : q a with
    | true =>
      rw [hq] at h
      simp only [hasSub, Bool.or_eq_true]
      exact Or.inr (ih h)
    | false =>
      rw [hq] at h
      exact h

theorem hasSub_pyStripL (p l : List Char) (h : hasSub p (pyStripL l) = true) :
    hasSub p l = true := by
  unfold pyStripL at h
  have e : l.dropWhile isPySpace
      = ((l.dropWhile isPySpace).reverse.dropWhile isPySpace).reverse
        ++ ((l.dropWhile isPySpace).reverse.takeWhile isPySpace).reverse := by
    conv_lhs => rw [← List.reverse_reverse (l.dropWhile isPySpace)]
    conv_lhs =>
      rw [← List.takeWhile_append_dropWhile (p := isPySpace)
        (l := (l.dropWhile isPySpace).reverse)]
    rw [List.reverse_append]
  exact hasSub_dropWhile p isPySpace l (by rw [e]; exact hasSub_append_left _ _ _ h)

theorem strStarts_containsSub (p s : String) (h : strStarts p s = true) :
    containsSub p s = true :=
  listStarts_hasSub p.toList s.toList h

theorem containsSub_pyStrip (p s : String) (h : containsSub p (pyStrip s) = true) :
    containsSub p s = true :=
  hasSub_pyStripL p.toList s.toList h

theorem noiseFree_sys (l : String) (h : noiseFreeB l = true) :
    strStarts "System Message:" (pyStrip l) = false := by
  by_contra hc
  have h1 : strStarts "System Message:" (pyStrip l) = true := by
    cases hx : strStarts "System Message:" (pyStrip l)
    · exact absurd hx hc
    · rfl
  have h2 := containsSub_pyStrip _ _ (strStarts_containsSub _ _ h1)
  simp only [noiseFreeB, Bool.and_eq_true, Bool.not_eq_true'] at h
  rw [h.1.1] at h2
  exact Bool.false_ne_true h2

theorem finalFilter_noiseFree_id (L : List String) (h : ∀ l ∈ L, noiseFreeB l = true) :
    finalFilter false L = L := by
  induction L with
  | nil => rfl
  | cons l rest ih =>
    have hl := h l (List.mem_cons_self l rest)
    simp only [noiseFreeB, Bool.and_eq_true, Bool.not_eq_true'] at hl
    simp only [finalFilter, hl.1.1, hl.1.2, hl.2, Bool.false_eq_true, if_false]
    rw [ih (fun x hx => h x (List.mem_cons_of_mem l hx))]

theorem mem_finalFilter_noiseFree (L : List String) :
    ∀ (skip : Bool) (l : String), l ∈ finalFilter skip L → noiseFreeB l = true := by
  induction L with
  | nil => intro skip l h; simp [finalFilter] at h
  | cons x rest ih =>
    intro skip l h
    cases skip with
    | true =>
      simp only [finalFilter, if_true] at h
      by_cases hx : pyStrip x = ""
      · rw [if_pos hx] at h; exact ih false l h
      · rw [if_neg hx] at h; exact ih true l h
    | false =>
      simp only [finalFilter, Bool.false_eq_true, if_false] at h
      by_cases h1 : containsSub "System Message:" x = true
      · rw [if_pos h1] at h; exact ih true l h
      · rw [if_neg h1] at h
        by_cases h2 : containsSub "Unexpected indentation." x = true
        · rw [if_pos h2] at h; exact ih false l h
        · rw [if_neg h2] at h
          by_cases h3 : containsSub csvNotice x = true
          · rw [if_pos h3] at h; exact ih false l h
          · rw [if_neg h3] at h
            rcases List.mem_cons.mp h with hl | hl
            · subst hl
              simp only [noiseFreeB, Bool.and_eq_true, Bool.not_eq_true']
              exact ⟨⟨Bool.not_eq_true _ ▸ Bool.of_not_eq_true h1,
                Bool.of_not_eq_true h2⟩, Bool.of_not_eq_true h3⟩
            · exact ih false l hl

theorem requiredLen_mono (xs : List String) : ∀ r : Nat, r ≤ requiredLen r xs := by
  induction xs with
  | nil => intro r; simp [requiredLen]
  | cons l tail ih =>
    intro r
    simp only [requiredLen]
    cases hf : parseFence l with
    | none => exact ih r
    | some f =>
      show r ≤ requiredLen (if r ≤ f.flen then f.flen + 1 else r) tail
      by_cases hle : r ≤ f.flen
      · rw [if_pos hle]
        exact le_trans (le_trans hle (Nat.le_succ _)) (ih (f.flen + 1))
      · rw [if_neg hle]
        exact ih r

theorem requiredLen_ge (xs : List String) : ∀ (r : Nat) (l : String) (f : FenceInfo),
    l ∈ xs → parseFence l = some f → r ≤ f.flen → f.flen + 1 ≤ requiredLen r xs := by
  induction xs with
  | nil => intro r l f h; simp at h
  | cons x tail ih =>
    intro r l f hmem hf hle
    rcases List.mem_cons.mp hmem with he | he
    · subst he
      simp only [requiredLen, hf]
      show f.flen + 1 ≤ requiredLen (if r ≤ f.flen then f.flen + 1 else r) tail
      rw [if_pos hle]
      exact requiredLen_mono tail (f.flen + 1)
    · simp only [requiredLen]
      cases hx : parseFence x with
      | none => exact ih r l f he hf hle
      | some g =>
        show f.flen + 1 ≤ requiredLen (if r ≤ g.flen then g.flen + 1 else r) tail
        by_cases hg : r ≤ g.flen
        · rw [if_pos hg]
          by_cases h2 : g.flen + 1 ≤ f.flen
          · exact ih (g.flen + 1) l f he hf h2
          · exact le_trans (by omega) (requiredLen_mono tail (g.flen + 1))
        · rw [if_neg hg]
          exact ih r l f he hf hle

theorem requiredLen_le (xs : List String) : ∀ (r k : Nat), r ≤ k + 1 →
    (∀ l ∈ xs, ∀ f, parseFence l = some f → f.flen ≤ k) → requiredLen r xs ≤ k + 1 := by
  induction xs with
  | nil => intro r k hr _; simpa [requiredLen] using hr
  | cons x tail ih =>
    intro r k hr hall
    simp only [requiredLen]
    cases hx : parseFence x with
    | none => exact ih r k hr (fun l hl f hf => hall l (List.mem_cons_of_mem x hl) f hf)
    | some g =>
      have hg : g.flen ≤ k := hall x (List.mem_cons_self x tail) g hx
      show requiredLen (if r ≤ g.flen then g.flen + 1 else r) tail ≤ k + 1
      by_cases hle : r ≤ g.flen
      · rw [if_pos hle]
        exact ih (g.flen + 1) k (by omega)
          (fun l hl f hf => hall l (List.mem_cons_of_mem x hl) f hf)
      · rw [if_neg hle]
        exact ih r k hr (fun l hl f hf => hall l (List.mem_cons_of_mem x hl) f hf)

theorem fixLine_id (l : String) (h : strStarts "## Fitting code snippet" (pyStrip l) = false) :
    fixLine l = l := by
  simp [fixLine, h]

theorem map_fixLine_id (xs : List String)
    (h : ∀ l ∈ xs, strStarts "## Fitting code snippet" (pyStrip l) = false) :
    xs.map fixLine = xs := by
  induction xs with
  | nil => rfl
  | cons x tail ih =>
    simp only [List.map_cons, fixLine_id x (h x (List.mem_cons_self x tail)),
      ih (fun l hl => h l (List.mem_cons_of_mem x hl))]

theorem scan_inblock (b : FenceInfo) : ∀ (inner : List String),
    (∀ l ∈ inner, strStarts "System Message:" (pyStrip l) = false) →
    (∀ l ∈ inner, ∀ f, parseFence l = some f → ¬ (f.ch = b.ch ∧ f.flen = b.flen)) →
    ∀ (rest cleaned : List String) (fh : Bool) (buffer : List String),
    scanLines (inner ++ rest) cleaned fh (some b) buffer false
      = scanLines rest cleaned fh (some b) (buffer ++ inner.map fixLine) false := by
  intro inner
  induction inner with
  | nil => intro _ _ rest cleaned fh buffer; simp
  | cons l tail ih =>
    intro hsys hnc rest cleaned fh buffer
    have hs : ¬ strStarts "System Message:" (pyStrip l) = true := by
      rw [hsys l (List.mem_cons_self l tail)]; exact Bool.false_ne_true
    have hsys2 : ∀ x ∈ tail, strStarts "System Message:" (pyStrip x) = false :=
      fun x hx => hsys x (List.mem_cons_of_mem l hx)
    have hnc2 : ∀ x ∈ tail, ∀ f, parseFence x = some f → ¬ (f.ch = b.ch ∧ f.flen = b.flen) :=
      fun x hx => hnc x (List.mem_cons_of_mem l hx)
    cases hf : parseFence l with
    | none =>
      rw [List.cons_append, scanLines_buffer_plain l _ cleaned fh b buffer hs hf,
        ih hsys2 hnc2 rest cleaned fh (buffer ++ [fixLine l])]
      simp [List.append_assoc]
    | some f =>
      have hm := hnc l (List.mem_cons_self l tail) f hf
      rw [List.cons_append, scanLines_buffer_fence l _ cleaned fh b buffer f hs hf hm,
        ih hsys2 hnc2 rest cleaned fh (buffer ++ [fixLine l])]
      simp [List.append_assoc]

theorem strEmptyAppend (s : String) : "" ++ s = s := by
  cases s; rfl

theorem strAppendEmpty (s : String) : s ++ "" = s := by
  cases s with
  | mk data =>
    show String.mk (data ++ []) = String.mk data
    rw [List.append_nil]

theorem hasSub_replicate_tilde (p : Char) (ps : List Char) (hp : p ≠ '~') :
    ∀ n : Nat, hasSub (p :: ps) (List.replicate n '~') = false := by
  intro n
  induction n with
  | zero => simp [hasSub, List.replicate]
  | succ n ih =>
    simp only [List.replicate, hasSub, listStarts, Bool.or_eq_false_iff, Bool.and_eq_false_iff]
    exact ⟨Or.inl (by simp [hp]), ih⟩

theorem noiseFree_tildes (n : Nat) : noiseFreeB (tildes n) = true := by
  have ht : (tildes n).toList = List.replicate n '~' := rfl
  simp only [noiseFreeB, containsSub, ht, Bool.and_eq_true, Bool.not_eq_true']
  refine ⟨⟨?_, ?_⟩, ?_⟩
  · exact hasSub_replicate_tilde 'S' _ (by decide) n
  · exact hasSub_replicate_tilde 'U' _ (by decide) n
  · exact hasSub_replicate_tilde 'C' _ (by decide) n

theorem isFenceOf_false (ch : Char) (n : Nat) (l : String) (h : isFenceOf ch n l = false)
    (f : FenceInfo) (hf : parseFence l = some f) : ¬ (f.ch = ch ∧ f.flen = n) := by
  intro ⟨h1, h2⟩
  simp only [isFenceOf, hf, Bool.and_eq_false_iff] at h
  rcases h with h | h
  · exact absurd h1 (by simpa using h)
  · exact absurd h2 (by simpa using h)

theorem isFenceLen_exists (n : Nat) (l : String) (h : isFenceLen n l = true) :
    ∃ f, parseFence l = some f ∧ f.flen = n := by
  unfold isFenceLen at h
  cases hf : parseFence l with
  | none => rw [hf] at h; simp at h
  | some f =>
    rw [hf] at h
    simp only [decide_eq_true_eq] at h
    exact ⟨f, rfl, h⟩

theorem fenceLenAtMost_le (k : Nat) (l : String) (h : fenceLenAtMost k l = true)
    (f : FenceInfo) (hf : parseFence l = some f) : f.flen ≤ k := by
  unfold fenceLenAtMost at h
  rw [hf] at h
  simpa using h

/-- C1 (amended): a backtick fence of length 3 whose body contains a nested
fence of length 4 is re-emitted by `_clean_markdown` with tilde delimiters of
the escalated length — at least 5, and exactly one more than the maximum
nested fence length — and the buffered body reappears verbatim between the
emitted delimiters, provided no body line is itself a backtick fence of
length exactly 3 (which would close the block early), none contains one of
the diagnostic substrings dropped by the normalizer (`System Message:`,
`Unexpected indentation.`, the csv-lexer notice), and none is the special
`## Fitting code snippet` line rewritten inside fences. -/
theorem C1_fence_roundtrip (inner : List String)
    (hnc : ∀ l ∈ inner, isFenceOf btick 3 l = false)
    (hnested : inner.any (isFenceLen 4) = true)
    (hnf : ∀ l ∈ inner, noiseFreeB l = true)
    (hfix : ∀ l ∈ inner, strStarts "## Fitting code snippet" (pyStrip l) = false) :
    cleanMarkdownLines ("```" :: inner ++ ["```"])
        = tildes (requiredLen 3 inner) :: inner ++ [tildes (requiredLen 3 inner)]
      ∧ 5 ≤ requiredLen 3 inner
      ∧ ((∀ l ∈ inner, fenceLenAtMost 4 l = true) → requiredLen 3 inner = 5) := by
  have hopen : parseFence "```" = some ⟨"", btick, 3, ""⟩ := by decide
  have hsys0 : ¬ strStarts "System Message:" (pyStrip "```") = true := by decide
  have hsysI : ∀ l ∈ inner, strStarts "System Message:" (pyStrip l) = false :=
    fun l hl => noiseFree_sys l (hnf l hl)
  have hchain : scanLines ("```" :: (inner ++ ["```"])) [] false none [] false
      = tildes (requiredLen 3 inner) :: inner ++ [tildes (requiredLen 3 inner)] := by
    rw [scanLines_open "```" (inner ++ ["```"]) [] false [] ⟨"", btick, 3, ""⟩ hsys0 hopen]
    rw [scan_inblock ⟨"", btick, 3, ""⟩ inner hsysI
      (fun l hl f hf => isFenceOf_false btick 3 l (hnc l hl) f hf) ["```"] [] false []]
    rw [scanLines_close "```" [] [] false ⟨"", btick, 3, ""⟩ ([] ++ inner.map fixLine)
      ⟨"", btick, 3, ""⟩ hsys0 hopen ⟨rfl, rfl⟩]
    rw [scanLines_nil]
    simp only [map_fixLine_id inner hfix, List.nil_append]
    simp [strEmptyAppend, strAppendEmpty]
  have hfive : 5 ≤ requiredLen 3 inner := by
    rcases List.any_eq_true.mp hnested with ⟨l, hl, hfl⟩
    rcases isFenceLen_exists 4 l hfl with ⟨f, hf, hflen⟩
    have hge := requiredLen_ge inner 3 l f hl hf (by omega)
    omega
  refine ⟨?_, hfive, ?_⟩
  · show finalFilter false (scanLines ("```" :: inner ++ ["```"]) [] false none [] false) = _
    rw [show ("```" :: inner ++ ["```"]) = "```" :: (inner ++ ["```"]) from rfl, hchain]
    apply finalFilter_noiseFree_id
    intro l hl
    rcases List.mem_cons.mp hl with he | he
    · subst he; exact noiseFree_tildes _
    · rcases List.mem_append.mp he with hi | hi
      · exact hnf l hi
      · rcases List.mem_singleton.mp hi with he2
        subst he2; exact noiseFree_tildes _
  · intro hall
    have hle := requiredLen_le inner 3 4 (by omega)
      (fun l hl f hf => fenceLenAtMost_le 4 l (hall l hl) f hf)
    omega

theorem C1_fence_roundtrip_witness :
    cleanMarkdownLines ["```", "````", "code", "````", "```"]
        = tildes (requiredLen 3 ["````", "code", "````"]) :: ["````", "code", "````"]
          ++ [tildes (requiredLen 3 ["````", "code", "````"])]
      ∧ 5 ≤ requiredLen 3 ["````", "code", "````"]
      ∧ ((∀ l ∈ ["````", "code", "````"], fenceLenAtMost 4 l = true)
          → requiredLen 3 ["````", "code", "````"] = 5) :=
  C1_fence_roundtrip ["````", "code", "````"] (by decide) (by decide) (by decide) (by decide)

/-- C1, counterexample to the claim as stated: when the nested content
contains the diagnostic substring `Unexpected indentation.`, the final
filter pass drops that line, so the inner content is not preserved verbatim
between the emitted delimiters for any emitted fence length. -/
theorem C1_fence_roundtrip_cex :
    cleanMarkdownLines ["```", "````", "Unexpected indentation.", "````", "```"]
        = ["~~~~~", "````", "````", "~~~~~"]
      ∧ ¬ ∃ k : Nat, cleanMarkdownLines ["```", "````", "Unexpected indentation.", "````", "```"]
          = tildes k :: ["````", "Unexpected indentation.", "````"] ++ [tildes k] := by
  refine ⟨by decide, ?_⟩
  rintro ⟨k, hk⟩
  rw [show cleanMarkdownLines ["```", "````", "Unexpected indentation.", "````", "```"]
      = ["~~~~~", "````", "````", "~~~~~"] from by decide] at hk
  have hl := congrArg List.length hk
  simp at hl

/-- C2 (amended): an unterminated fence at end of input still emits an
opening delimiter (a tilde fence of the original length) followed by the
buffered content, but no closing delimiter is appended — provided, as in
C1, the buffered lines close no backtick fence of length 3, contain no
diagnostic substrings, and none is the special rewritten line. -/
theorem C2_unterminated_fence (inner : List String)
    (hnc : ∀ l ∈ inner, isFenceOf btick 3 l = false)
    (hnf : ∀ l ∈ inner, noiseFreeB l = true)
    (hfix : ∀ l ∈ inner, strStarts "## Fitting code snippet" (pyStrip l) = false) :
    cleanMarkdownLines ("```" :: inner) = "~~~" :: inner := by
  have hopen : parseFence "```" = some ⟨"", btick, 3, ""⟩ := by decide
  have hsys0 : ¬ strStarts "System Message:" (pyStrip "```") = true := by decide
  have hsysI : ∀ l ∈ inner, strStarts "System Message:" (pyStrip l) = false :=
    fun l hl => noiseFree_sys l (hnf l hl)
  have hchain : scanLines ("```" :: inner) [] false none [] false = "~~~" :: inner := by
    rw [show ("```" :: inner) = "```" :: (inner ++ []) from by simp]
    rw [scanLines_open "```" (inner ++ []) [] false [] ⟨"", btick, 3, ""⟩ hsys0 hopen]
    rw [scan_inblock ⟨"", btick, 3, ""⟩ inner hsysI
      (fun l hl f hf => isFenceOf_false btick 3 l (hnc l hl) f hf) [] [] false []]
    rw [scanLines_nil]
    simp only [map_fixLine_id inner hfix, List.nil_append]
    simp [strEmptyAppend, strAppendEmpty, show tildes 3 = "~~~" from by decide]
  unfold cleanMarkdownLines
  rw [hchain]
  apply finalFilter_noiseFree_id
  intro l hl
  rcases List.mem_cons.mp hl with he | he
  · subst he; decide
  · exact hnf l he

theorem C2_unterminated_fence_witness :
    cleanMarkdownLines ["```", "x"] = "~~~" :: ["x"] :=
  C2_unterminated_fence ["x"] (by decide) (by decide) (by decide)

/-- C2, counterexample to the claim as stated: for the unterminated fence
input `["```", "x"]` the output consists of the opening delimiter and the
buffered content only; no closing delimiter of any form follows. -/
theorem C2_unterminated_fence_cex :
    cleanMarkdownLines ["```", "x"] = ["~~~", "x"]
      ∧ ¬ ∃ d : String, cleanMarkdownLines ["```", "x"] = ["~~~"] ++ ["x"] ++ [d] := by
  refine ⟨by decide, ?_⟩
  rintro ⟨d, hd⟩
  rw [show cleanMarkdownLines ["```", "x"] = ["~~~", "x"] from by decide] at hd
  have hl := congrArg List.length hd
  simp at hl

theorem hasSub_cons_of_ne (p : Char) (ps : List Char) (c : Char) (t : List Char) (h : p ≠ c) :
    hasSub (p :: ps) (c :: t) = hasSub (p :: ps) t := by
  simp [hasSub, listStarts, h]

theorem hasSub_append_right (p : List Char) (x y : List Char) (h : hasSub p y = true) :
    hasSub p (x ++ y) = true := by
  induction x with
  | nil => simpa using h
  | cons c cs ih =>
    simp only [List.cons_append, hasSub, Bool.or_eq_true]
    exact Or.inr ih

theorem hasSub_drop (p : List Char) (l : List Char) (n : Nat)
    (h : hasSub p (l.drop n) = true) : hasSub p l = true := by
  have e : l = l.take n ++ l.drop n := (List.take_append_drop n l).symm
  rw [e]
  exact hasSub_append_right p (l.take n) (l.drop n) h

theorem hasSub_stripBoth (q : Char → Bool) (p l : List Char)
    (h : hasSub p (((l.dropWhile q).reverse.dropWhile q).reverse) = true) :
    hasSub p l = true := by
  have e : l.dropWhile q
      = ((l.dropWhile q).reverse.dropWhile q).reverse
        ++ ((l.dropWhile q).reverse.takeWhile q).reverse := by
    conv_lhs => rw [← List.reverse_reverse (l.dropWhile q)]
    conv_lhs =>
      rw [← List.takeWhile_append_dropWhile (p := q) (l := (l.dropWhile q).reverse)]
    rw [List.reverse_append]
  exact hasSub_dropWhile p q l (by rw [e]; exact hasSub_append_left _ _ _ h)

theorem hasSub_prepend_safe (p : Char) (ps : List Char) :
    ∀ (pre : List Char), (∀ c ∈ pre, c = '#' ∨ c = ' ') → p ≠ '#' → p ≠ ' ' →
    ∀ t : List Char, hasSub (p :: ps) (pre ++ t) = hasSub (p :: ps) t := by
  intro pre
  induction pre with
  | nil => intro _ _ _ t; rfl
  | cons c cs ih =>
    intro hpre hp1 hp2 t
    have hc := hpre c (List.mem_cons_self c cs)
    have hne : p ≠ c := by rcases hc with hc | hc <;> rw [hc] <;> assumption
    rw [List.cons_append, hasSub_cons_of_ne p ps c _ hne]
    exact ih (fun d hd => hpre d (List.mem_cons_of_mem c hd)) hp1 hp2 t

theorem contains_false_transfer (p x y : String)
    (htrans : containsSub p x = true → containsSub p y = true)
    (hy : containsSub p y = false) : containsSub p x = false := by
  cases hx : containsSub p x
  · rfl
  · exact absurd hy (by simp [htrans hx])

theorem noiseFree_transfer (x y : String)
    (h1 : containsSub "System Message:" x = true → containsSub "System Message:" y = true)
    (h2 : containsSub "Unexpected indentation." x = true
      → containsSub "Unexpected indentation." y = true)
    (h3 : containsSub csvNotice x = true → containsSub csvNotice y = true)
    (hy : noiseFreeB y = true) : noiseFreeB x = true := by
  simp only [noiseFreeB, Bool.and_eq_true, Bool.not_eq_true'] at hy ⊢
  exact ⟨⟨contains_false_transfer _ _ _ h1 hy.1.1, contains_false_transfer _ _ _ h2 hy.1.2⟩,
    contains_false_transfer _ _ _ h3 hy.2⟩

theorem noiseFree_pyStrip (l : String) (h : noiseFreeB l = true) :
    noiseFreeB (pyStrip l) = true :=
  noiseFree_transfer _ _ (containsSub_pyStrip _ _) (containsSub_pyStrip _ _)
    (containsSub_pyStrip _ _) h

theorem noiseFree_strDrop (s : String) (n : Nat) (h : noiseFreeB s = true) :
    noiseFreeB (strDrop s n) = true :=
  noiseFree_transfer _ _ (fun hx => hasSub_drop _ _ n hx) (fun hx => hasSub_drop _ _ n hx)
    (fun hx => hasSub_drop _ _ n hx) h

theorem noiseFree_prependStr (pre x : String)
    (hpre : ∀ c ∈ pre.toList, c = '#' ∨ c = ' ')
    (hx : noiseFreeB x = true) : noiseFreeB (pre ++ x) = true := by
  have key : ∀ (p : Char) (ps : List Char), p ≠ '#' → p ≠ ' ' →
      hasSub (p :: ps) ((pre ++ x).toList) = hasSub (p :: ps) x.toList := by
    intro p ps h1 h2
    have e : (pre ++ x).toList = pre.toList ++ x.toList := String.data_append pre x
    rw [e, hasSub_prepend_safe p ps pre.toList hpre h1 h2]
  simp only [noiseFreeB, Bool.and_eq_true, Bool.not_eq_true'] at hx ⊢
  refine ⟨⟨?_, ?_⟩, ?_⟩
  · show hasSub ('S' :: "ystem Message:".toList) ((pre ++ x).toList) = false
    rw [key 'S' "ystem Message:".toList (by decide) (by decide)]
    exact hx.1.1
  · show hasSub ('U' :: "nexpected indentation.".toList) ((pre ++ x).toList) = false
    rw [key 'U' "nexpected indentation.".toList (by decide) (by decide)]
    exact hx.1.2
  · show hasSub ('C' :: "annot analyze code. No Pygments lexer found for \"csv\".".toList)
      ((pre ++ x).toList) = false
    rw [key 'C' "annot analyze code. No Pygments lexer found for \"csv\".".toList
      (by decide) (by decide)]
    exact hx.2

theorem noiseFree_dropHashes (z : String) (h : noiseFreeB z = true) :
    noiseFreeB (dropHashes z) = true :=
  noiseFree_transfer _ _ (fun hx => hasSub_dropWhile _ _ _ hx)
    (fun hx => hasSub_dropWhile _ _ _ hx) (fun hx => hasSub_dropWhile _ _ _ hx) h

theorem noiseFree_pyStripStar (z : String) (h : noiseFreeB z = true) :
    noiseFreeB (pyStripStar z) = true :=
  noiseFree_transfer _ _ (fun hx => hasSub_stripBoth _ _ _ hx)
    (fun hx => hasSub_stripBoth _ _ _ hx) (fun hx => hasSub_stripBoth _ _ _ hx) h

theorem noiseFree_normHead (l : String) (h : noiseFreeB l = true) :
    noiseFreeB (normHead (pyStrip l)) = true := by
  by_cases hb : strStarts "# **" (pyStrip l) = true ∧ strEnds "**" (pyStrip l) = true
  · rw [normHead, if_pos hb]
    exact noiseFree_prependStr "# " _ (by decide)
      (noiseFree_pyStripStar _ (noiseFree_pyStrip _ (noiseFree_dropHashes _
        (noiseFree_pyStrip _ h))))
  · rw [normHead, if_neg hb]
    exact noiseFree_pyStrip _ h

theorem noiseFree_repairLine (l : String) (h : noiseFreeB l = true) :
    noiseFreeB (repairLine l) = true := by
  rw [repairLine]
  split
  · exact noiseFree_prependStr " " _ (by decide) h
  · exact h

theorem strStarts_hashsp_append (x : String) : strStarts "# " ("# " ++ x) = true := by
  show listStarts "# ".toList (("# " ++ x).toList) = true
  have e : ("# " ++ x).toList = "# ".toList ++ x.toList := String.data_append _ _
  rw [e]
  show listStarts ['#', ' '] (['#', ' '] ++ x.toList) = true
  simp [listStarts]

theorem not_top_hh (x : String) : strStarts "# " ("## " ++ x) = false := by
  show listStarts "# ".toList (("## " ++ x).toList) = false
  have e : ("## " ++ x).toList = "## ".toList ++ x.toList := String.data_append _ _
  rw [e]
  show listStarts ['#', ' '] (['#', '#', ' '] ++ x.toList) = false
  simp [listStarts]

theorem not_top_space (x : String) : strStarts "# " (" " ++ x) = false := by
  show listStarts "# ".toList ((" " ++ x).toList) = false
  have e : (" " ++ x).toList = " ".toList ++ x.toList := String.data_append _ _
  rw [e]
  show listStarts ['#', ' '] ([' '] ++ x.toList) = false
  simp [listStarts]

theorem listStarts_mono (p1 p2 : List Char) : ∀ l : List Char,
    listStarts (p1 ++ p2) l = true → listStarts p1 l = true := by
  induction p1 with
  | nil => intro l _; rfl
  | cons a as ih =>
    intro l h
    cases l with
    | nil => simp [listStarts] at h
    | cons c cs =>
      simp only [List.cons_append, listStarts, Bool.and_eq_true] at h ⊢
      exact ⟨h.1, ih cs h.2⟩

theorem top_of_bold (s : String) (h : strStarts "# **" s = true) : strStarts "# " s = true :=
  listStarts_mono "# ".toList "**".toList s.toList h

theorem top_normHead (s : String) : strStarts "# " (normHead s) = strStarts "# " s := by
  by_cases hb : strStarts "# **" s = true ∧ strEnds "**" s = true
  · rw [normHead, if_pos hb, strStarts_hashsp_append, top_of_bold s hb.1]
  · rw [normHead, if_neg hb]

theorem dropWhile_append_last (w : Char → Bool) (a : Char) (ha : w a = false) :
    ∀ xs : List Char, ∃ ys, (xs ++ [a]).dropWhile w = ys ++ [a] := by
  intro xs
  induction xs with
  | nil =>
    refine ⟨[], ?_⟩
    simp only [List.nil_append, List.dropWhile_cons, ha, Bool.false_eq_true, if_false,
      List.dropWhile_nil]
  | cons x xs ih =>
    by_cases hw : w x = true
    · rcases ih with ⟨ys, hy⟩
      exact ⟨ys, by simp [List.dropWhile_cons, hw, hy]⟩
    · exact ⟨x :: xs, by simp [List.dropWhile_cons, hw]⟩

theorem pyStripL_hash_head (cs : List Char) : ∃ t2, pyStripL ('#' :: cs) = '#' :: t2 := by
  unfold pyStripL
  have h1 : ('#' :: cs).dropWhile isPySpace = '#' :: cs := by
    simp [List.dropWhile_cons, show isPySpace '#' = false from by decide]
  rw [h1]
  have h2 : ('#' :: cs).reverse = cs.reverse ++ ['#'] := by simp
  rw [h2]
  rcases dropWhile_append_last isPySpace '#' (by decide) cs.reverse with ⟨ys, hy⟩
  rw [hy, List.reverse_append]
  exact ⟨ys.reverse, rfl⟩

theorem top_imp_strip_hash (l : String) (h : strStarts "# " l = true) :
    strStarts "#" (pyStrip l) = true := by
  have hex : ∃ rest, l.toList = '#' :: rest := by
    cases hl : l.toList with
    | nil =>
      rw [show strStarts "# " l = listStarts ['#', ' '] l.toList from rfl, hl] at h
      simp [listStarts] at h
    | cons c cs =>
      rw [show strStarts "# " l = listStarts ['#', ' '] l.toList from rfl, hl] at h
      simp only [listStarts, Bool.and_eq_true, decide_eq_true_eq] at h
      exact ⟨cs, by rw [← h.1]⟩
  rcases hex with ⟨rest, hrest⟩
  rcases pyStripL_hash_head rest with ⟨t2, ht⟩
  show listStarts "#".toList (pyStrip l).toList = true
  have e : (pyStrip l).toList = pyStripL l.toList := rfl
  rw [e, hrest, ht]
  simp [listStarts]

theorem tame_dest (l : String) (h : tameLine l = true) :
    parseFence l = none ∧ ¬ (pyLower (pyStrip l) ∈ admonitionLabels) ∧ noiseFreeB l = true := by
  simp only [tameLine, Bool.and_eq_true, Bool.not_eq_true', decide_eq_false_iff_not,
    Option.isNone_iff_eq_none] at h
  exact ⟨h.1.1, h.1.2, h.2⟩

theorem top_imp_hash (s : String) (h : strStarts "# " s = true) : strStarts "#" s = true :=
  listStarts_mono "#".toList " ".toList s.toList h

theorem not_top_repair (line : String) (hh : ¬ strStarts "#" (pyStrip line) = true) :
    strStarts "# " (repairLine line) = false := by
  rw [repairLine]
  split
  · exact not_top_space line
  · cases hx : strStarts "# " line
    · rfl
    · exact absurd (top_imp_strip_hash line hx) hh

theorem scan_tame_top_true (lines : List String) :
    ∀ (cleaned buffer : List String), (∀ l ∈ lines, tameLine l = true) →
    (scanLines lines cleaned true none buffer false).filter (fun l => strStarts "# " l)
      = cleaned.filter (fun l => strStarts "# " l) := by
  induction lines with
  | nil => intro cleaned buffer _; rfl
  | cons line rest ih =>
    intro cleaned buffer htame
    obtain ⟨hf, hadm, hnf⟩ := tame_dest line (htame line (List.mem_cons_self _ _))
    have hs : ¬ strStarts "System Message:" (pyStrip line) = true := by
      rw [noiseFree_sys line hnf]; exact Bool.false_ne_true
    have htame2 : ∀ l ∈ rest, tameLine l = true := fun l hl => htame l (List.mem_cons_of_mem _ hl)
    by_cases hh : strStarts "#" (pyStrip line) = true
    · rw [scanLines_heading line rest cleaned true buffer hs hf hh]
      by_cases ht : strStarts "# " (normHead (pyStrip line)) = true
      · rw [if_pos ht, if_pos rfl, ih _ buffer htame2, List.filter_append]
        simp [List.filter, not_top_hh]
      · rw [if_neg ht, ih _ buffer htame2, List.filter_append]
        simp only [Bool.not_eq_true] at ht
        simp [List.filter, ht]
    · rw [scanLines_plain line rest cleaned true buffer hs hf hh hadm,
        ih _ buffer htame2, List.filter_append]
      simp [List.filter, not_top_repair line hh]

theorem scan_tame_top_false (lines : List String) :
    ∀ (cleaned buffer : List String), (∀ l ∈ lines, tameLine l = true) →
    (scanLines lines cleaned false none buffer false).filter (fun l => strStarts "# " l)
      = cleaned.filter (fun l => strStarts "# " l)
        ++ ((lines.filter (fun l => strStarts "# " (pyStrip l))).take 1).map
            (fun l => normHead (pyStrip l)) := by
  induction lines with
  | nil =>
    intro cleaned buffer _
    rw [show scanLines [] cleaned false none buffer false = cleaned from rfl]
    simp
  | cons line rest ih =>
    intro cleaned buffer htame
    obtain ⟨hf, hadm, hnf⟩ := tame_dest line (htame line (List.mem_cons_self _ _))
    have hs : ¬ strStarts "System Message:" (pyStrip line) = true := by
      rw [noiseFree_sys line hnf]; exact Bool.false_ne_true
    have htame2 : ∀ l ∈ rest, tameLine l = true := fun l hl => htame l (List.mem_cons_of_mem _ hl)
    by_cases ht : strStarts "# " (pyStrip line) = true
    · have hh : strStarts "#" (pyStrip line) = true := top_imp_hash _ ht
      have htn : strStarts "# " (normHead (pyStrip line)) = true := by
        rw [top_normHead]; exact ht
      rw [scanLines_heading line rest cleaned false buffer hs hf hh, if_pos htn,
        if_neg (by simp : ¬ (false = true)), scan_tame_top_true rest _ buffer htame2,
        List.filter_append]
      simp [List.filter, ht, htn]
    · by_cases hh : strStarts "#" (pyStrip line) = true
      · have htn : ¬ strStarts "# " (normHead (pyStrip line)) = true := by
          rw [top_normHead]; exact ht
        rw [scanLines_heading line rest cleaned false buffer hs hf hh, if_neg htn,
          ih _ buffer htame2, List.filter_append]
        simp only [Bool.not_eq_true] at htn ht
        simp [List.filter, htn, ht]
      · rw [scanLines_plain line rest cleaned false buffer hs hf hh hadm,
          ih _ buffer htame2, List.filter_append]
        simp only [Bool.not_eq_true] at ht
        simp [List.filter, not_top_repair line hh, ht]

theorem sublist_skip_mid (cleaned : List String) (x : String) (tail : List String) :
    (cleaned ++ tail).Sublist (cleaned ++ [x] ++ tail) := by
  rw [List.append_assoc]
  exact ((List.Sublist.refl tail).cons x).append_left cleaned

theorem scan_tame_sublist (lines : List String) :
    ∀ (cleaned buffer : List String) (fh : Bool), (∀ l ∈ lines, tameLine l = true) →
    (cleaned ++ ((lines.filter (fun l => strStarts "# " (pyStrip l))).drop
        (if fh then 0 else 1)).map
      (fun l => "## " ++ strDrop (normHead (pyStrip l)) 2)).Sublist
      (scanLines lines cleaned fh none buffer false) := by
  induction lines with
  | nil =>
    intro cleaned buffer fh _
    simp only [List.filter_nil, List.drop_nil, List.map_nil, List.append_nil]
    exact List.Sublist.refl cleaned
  | cons line rest ih =>
    intro cleaned buffer fh htame
    obtain ⟨hf, hadm, hnf⟩ := tame_dest line (htame line (List.mem_cons_self _ _))
    have hs : ¬ strStarts "System Message:" (pyStrip line) = true := by
      rw [noiseFree_sys line hnf]; exact Bool.false_ne_true
    have htame2 : ∀ l ∈ rest, tameLine l = true := fun l hl => htame l (List.mem_cons_of_mem _ hl)
    by_cases ht : strStarts "# " (pyStrip line) = true
    · have hh : strStarts "#" (pyStrip line) = true := top_imp_hash _ ht
      have htn : strStarts "# " (normHead (pyStrip line)) = true := by
        rw [top_normHead]; exact ht
      cases fh with
      | true =>
        rw [scanLines_heading line rest cleaned true buffer hs hf hh, if_pos htn,
          if_pos rfl]
        have hIH := ih (cleaned ++ ["## " ++ strDrop (normHead (pyStrip line)) 2]) buffer true
          htame2
        simp only [if_true, List.drop_zero] at hIH ⊢
        rw [List.filter_cons_of_pos (by exact ht), List.map_cons]
        rw [show cleaned ++ ("## " ++ strDrop (normHead (pyStrip line)) 2)
            :: (rest.filter (fun l => strStarts "# " (pyStrip l))).map
              (fun l => "## " ++ strDrop (normHead (pyStrip l)) 2)
          = (cleaned ++ ["## " ++ strDrop (normHead (pyStrip line)) 2])
            ++ (rest.filter (fun l => strStarts "# " (pyStrip l))).map
              (fun l => "## " ++ strDrop (normHead (pyStrip l)) 2) from by simp]
        exact hIH
      | false =>
        rw [scanLines_heading line rest cleaned false buffer hs hf hh, if_pos htn,
          if_neg (by simp : ¬ (false = true))]
        have hIH := ih (cleaned ++ [normHead (pyStrip line)]) buffer true htame2
        simp only [if_true, List.drop_zero] at hIH
        simp only [if_neg (by simp : ¬ (false = true))]
        rw [List.filter_cons_of_pos (by exact ht), List.drop_one, List.tail_cons]
        exact List.Sublist.trans (sublist_skip_mid cleaned (normHead (pyStrip line)) _) hIH
    · by_cases hh : strStarts "#" (pyStrip line) = true
      · have htn : ¬ strStarts "# " (normHead (pyStrip line)) = true := by
          rw [top_normHead]; exact ht
        rw [scanLines_heading line rest cleaned fh buffer hs hf hh, if_neg htn]
        have hIH := ih (cleaned ++ [normHead (pyStrip line)]) buffer fh htame2
        rw [List.filter_cons_of_neg (by simpa using ht)]
        exact List.Sublist.trans (sublist_skip_mid cleaned (normHead (pyStrip line)) _) hIH
      · rw [scanLines_plain line rest cleaned fh buffer hs hf hh hadm]
        have hIH := ih (cleaned ++ [repairLine line]) buffer fh htame2
        rw [List.filter_cons_of_neg (by simpa using ht)]
        exact List.Sublist.trans (sublist_skip_mid cleaned (repairLine line) _) hIH

theorem scan_tame_noise (lines : List String) :
    ∀ (cleaned buffer : List String) (fh : Bool), (∀ l ∈ lines, tameLine l = true) →
    (∀ x ∈ cleaned, noiseFreeB x = true) →
    ∀ out ∈ scanLines lines cleaned fh none buffer false, noiseFreeB out = true := by
  induction lines with
  | nil => intro cleaned buffer fh _ hcl out hout; exact hcl out hout
  | cons line rest ih =>
    intro cleaned buffer fh htame hcl out hout
    obtain ⟨hf, hadm, hnf⟩ := tame_dest line (htame line (List.mem_cons_self _ _))
    have hs : ¬ strStarts "System Message:" (pyStrip line) = true := by
      rw [noiseFree_sys line hnf]; exact Bool.false_ne_true
    have htame2 : ∀ l ∈ rest, tameLine l = true := fun l hl => htame l (List.mem_cons_of_mem _ hl)
    have hext : ∀ y : String, noiseFreeB y = true → ∀ x ∈ cleaned ++ [y], noiseFreeB x = true := by
      intro y hy x hx
      rcases List.mem_append.mp hx with h1 | h1
      · exact hcl x h1
      · rw [List.mem_singleton.mp h1]; exact hy
    by_cases hh : strStarts "#" (pyStrip line) = true
    · rw [scanLines_heading line rest cleaned fh buffer hs hf hh] at hout
      by_cases htn : strStarts "# " (normHead (pyStrip line)) = true
      · rw [if_pos htn] at hout
        cases fh with
        | true =>
          rw [if_pos rfl] at hout
          exact ih _ buffer true htame2
            (hext _ (noiseFree_prependStr "## " _ (by decide)
              (noiseFree_strDrop _ 2 (noiseFree_normHead line hnf)))) out hout
        | false =>
          rw [if_neg (by simp : ¬ (false = true))] at hout
          exact ih _ buffer true htame2 (hext _ (noiseFree_normHead line hnf)) out hout
      · rw [if_neg htn] at hout
        exact ih _ buffer fh htame2 (hext _ (noiseFree_normHead line hnf)) out hout
    · rw [scanLines_plain line rest cleaned fh buffer hs hf hh hadm] at hout
      exact ih _ buffer fh htame2 (hext _ (noiseFree_repairLine line hnf)) out hout

/-- C3 (amended): in a document whose lines trigger none of the scanner's
other modes (no fence lines, no admonition labels, no diagnostic
substrings) and that contains exactly three top-level heading lines, the
normalized output contains exactly one top-level heading — the first one,
normalized — and the other two appear demoted to second-level headings, in
their original relative order. -/
theorem C3_heading_demotion (lines : List String) (a b c : String)
    (htame : ∀ l ∈ lines, tameLine l = true)
    (hheads : lines.filter (fun l => strStarts "# " (pyStrip l)) = [a, b, c]) :
    (cleanMarkdownLines lines).filter (fun l => strStarts "# " l) = [normHead (pyStrip a)]
    ∧ ["## " ++ strDrop (normHead (pyStrip b)) 2,
       "## " ++ strDrop (normHead (pyStrip c)) 2].Sublist (cleanMarkdownLines lines) := by
  have hfix : cleanMarkdownLines lines = scanLines lines [] false none [] false := by
    unfold cleanMarkdownLines
    exact finalFilter_noiseFree_id _ (scan_tame_noise lines [] [] false htame (by simp))
  constructor
  · rw [hfix, scan_tame_top_false lines [] [] htame, hheads]
    simp
  · rw [hfix]
    have hsub := scan_tame_sublist lines [] [] false htame
    rw [hheads] at hsub
    simpa using hsub

theorem C3_heading_demotion_witness :
    (cleanMarkdownLines ["# A", "text", "# B", "# C"]).filter (fun l => strStarts "# " l)
        = [normHead (pyStrip "# A")]
    ∧ ["## " ++ strDrop (normHead (pyStrip "# B")) 2,
       "## " ++ strDrop (normHead (pyStrip "# C")) 2].Sublist
        (cleanMarkdownLines ["# A", "text", "# B", "# C"]) :=
  C3_heading_demotion ["# A", "text", "# B", "# C"] "# A" "# B" "# C" (by decide) (by decide)

/-- C3, counterexample to the claim as stated: when the three top-level
headings directly follow an admonition label line, the admonition capture
turns them into blockquote lines, so the output contains no top-level
heading at all instead of exactly one. -/
theorem C3_heading_demotion_cex :
    (["note", "# A", "# B", "# C"].filter (fun l => strStarts "# " (pyStrip l))
        = ["# A", "# B", "# C"])
    ∧ (∀ l ∈ ["note", "# A", "# B", "# C"], parseFence l = none)
    ∧ cleanMarkdownLines ["note", "# A", "# B", "# C"]
        = ["> **Note:**", "> # A", "> # B", "> # C", ""]
    ∧ (cleanMarkdownLines ["note", "# A", "# B", "# C"]).filter
        (fun l => strStarts "# " l) = [] := by
  refine ⟨by decide, by decide, by decide, by decide⟩

/-- C10 (confirmed): the final filter pass of `_clean_markdown` drops every
line containing `System Message:` (together with the following lines up to
the next blank line), `Unexpected indentation.`, or the csv-lexer notice —
no output line ever contains one of these substrings — and this applies
even to content buffered inside an emitted code fence, so such fenced
content is not preserved verbatim: a fence whose body holds a
`System Message:` line loses that line, its followers, and here even the
closing delimiter; a fence whose body holds `Unexpected indentation.`
loses that line. -/
theorem C10_noise_filter :
    (∀ (input : List String) (l : String), l ∈ cleanMarkdownLines input →
      containsSub "System Message:" l = false
      ∧ containsSub "Unexpected indentation." l = false
      ∧ containsSub csvNotice l = false)
    ∧ cleanMarkdownLines ["```", "x System Message: y", "after", "```"] = ["~~~"]
    ∧ cleanMarkdownLines ["```", "Unexpected indentation.", "```"] = ["~~~", "~~~"] := by
  refine ⟨?_, by decide, by decide⟩
  intro input l hl
  have h := mem_finalFilter_noiseFree (scanLines input [] false none [] false) false l hl
  simp only [noiseFreeB, Bool.and_eq_true, Bool.not_eq_true'] at h
  exact ⟨h.1.1, h.1.2, h.2⟩

theorem C10_noise_filter_witness :
    containsSub "System Message:" "hello" = false
    ∧ containsSub "Unexpected indentation." "hello" = false
    ∧ containsSub csvNotice "hello" = false :=
  C10_noise_filter.1 ["hello"] "hello" (by decide)

/-- C7 (amended): a transform name outside the fixed vocabulary raises
`ValueError` naming the offending transform on the notebook dispatch path
(`_apply_transform`), with no mutation of the document; the text-mode path
(`_apply_text_transform`), however, does not raise — it prints a warning to
stderr and returns the content unchanged. -/
theorem C7_unknown_transform (t : String) (nb : Notebook) (e : Entry) (content footer : String)
    (convert : Notebook → Entry → Except String Notebook) (injectWeb : String → String)
    (hnb : t ∉ ["clear_outputs", "record_metadata", "replace_purple_hr", "remove_colab_only",
      "tag_ci_skip_nexus_only", "remove_nexus_only_cells", "insert_rrn_footer", "footer",
      "warn_required_sections", "convert_rst_to_notebook"]) :
    _apply_transform footer convert t nb e = .error ("Unknown transform '" ++ t ++ "'")
    ∧ (t ∉ ["build_like_website"] →
      _apply_text_transform injectWeb footer t content = .ok content) := by
  simp only [List.mem_cons, List.not_mem_nil, or_false, not_or] at hnb
  obtain ⟨h1, h2, h3, h4, h5, h6, h7, h8, h9, h10⟩ := hnb
  constructor
  · simp only [_apply_transform, h1, h2, h3, h4, h5, h6, h7, h8, h9, h10, if_false, or_self,
      if_neg (not_or.mpr ⟨h7, h8⟩)]
  · intro htext
    simp only [List.mem_cons, List.not_mem_nil, or_false, not_or] at htext
    simp only [_apply_text_transform, htext, h1, h2, h3, h4, h7, h8, if_false, or_self,
      if_neg (not_or.mpr ⟨h8, h7⟩), h9]

theorem C7_unknown_transform_witness :
    _apply_transform "" (fun nb _ => .ok nb) "bogus" newNotebook
        ⟨"e1", "src", none, none, false, [], [], none, none, none, [], none⟩
      = .error ("Unknown transform '" ++ "bogus" ++ "'")
    ∧ _apply_text_transform (fun s => s) "" "bogus" "hello" = .ok "hello" := by
  have h := C7_unknown_transform "bogus" newNotebook
    ⟨"e1", "src", none, none, false, [], [], none, none, none, [], none⟩
    "hello" "" (fun nb _ => .ok nb) (fun s => s) (by decide)
  exact ⟨h.1, h.2 (by decide)⟩

/-- C7, counterexample to the claim as stated: on the text-mode transform
path an unknown name is not a fatal error — the content is returned
unchanged as a successful result. -/
theorem C7_unknown_transform_cex :
    _apply_text_transform (fun s => s) "" "bogus" "hello" = Except.ok "hello"
    ∧ ¬ ∃ msg : String, _apply_text_transform (fun s => s) "" "bogus" "hello"
        = Except.error msg := by
  have h : _apply_text_transform (fun s => s) "" "bogus" "hello" = Except.ok "hello" := by
    simp [_apply_text_transform]
  refine ⟨h, ?_⟩
  rintro ⟨msg, hmsg⟩
  rw [h] at hmsg
  exact Except.noConfusion hmsg

theorem listStarts_refl (p : List Char) : listStarts p p = true := by
  induction p with
  | nil => rfl
  | cons a as ih => simp [listStarts, ih]

theorem nexusOnlyAt_pat (w : List Char) (hw : w = [] ∨ ∃ w2, w = '\n' :: w2) :
    nexusOnlyAt ("# NEXUS-ONLY".toList ++ w) = true := by
  have e1 : ("# NEXUS-ONLY".toList ++ w) = '#' :: (" NEXUS-ONLY".toList ++ w) := rfl
  rw [e1, nexusOnlyAt]
  have e2 : ('#' :: (" NEXUS-ONLY".toList ++ w)).dropWhile isPySpace
      = '#' :: (" NEXUS-ONLY".toList ++ w) := by
    simp [List.dropWhile_cons, show isPySpace '#' = false from rfl]
  rw [e2]
  have e3 : (" NEXUS-ONLY".toList ++ w).dropWhile isPySpace = "NEXUS-ONLY".toList ++ w := by
    show ((' ' :: "NEXUS-ONLY".toList) ++ w).dropWhile isPySpace = "NEXUS-ONLY".toList ++ w
    rw [List.cons_append]
    simp only [List.dropWhile_cons, show isPySpace ' ' = true from rfl, if_true]
    simp [List.dropWhile_cons, show isPySpace 'N' = false from rfl,
      show ("NEXUS-ONLY".toList ++ w) = 'N' :: ("EXUS-ONLY".toList ++ w) from rfl]
  simp only [e3]
  have e4 : listStarts "NEXUS-ONLY".toList ("NEXUS-ONLY".toList ++ w) = true :=
    listStarts_append _ _ _ (listStarts_refl _)
  rw [e4]
  have e5 : ("NEXUS-ONLY".toList ++ w).drop 10 = w := List.drop_left "NEXUS-ONLY".toList w
  rw [e5]
  rcases hw with hw | ⟨w2, hw⟩ <;> subst hw <;> simp [isWordChar]

theorem lineStartsGo_after (m : List Char → Bool) :
    ∀ (u2 rest : List Char), m rest = true → lineStartsGo m (u2 ++ '\n' :: rest) = true := by
  intro u2
  induction u2 with
  | nil =>
    intro rest hm
    simp [lineStartsGo, hm]
  | cons c u2 ih =>
    intro rest hm
    by_cases hc : c = '\n'
    · subst hc
      simp only [List.cons_append, lineStartsGo, Bool.or_eq_true]
      exact Or.inr (ih rest hm)
    · rw [List.cons_append]
      have e : lineStartsGo m (c :: (u2 ++ '\n' :: rest)) = lineStartsGo m (u2 ++ '\n' :: rest) := by
        simp [lineStartsGo, hc]
      rw [e]
      exact ih rest hm

theorem atLineStarts_at (m : List Char → Bool) (u w pat : List Char)
    (hu : u = [] ∨ ∃ u2, u = u2 ++ ['\n']) (hm : m (pat ++ w) = true) :
    atLineStarts m (u ++ pat ++ w) = true := by
  rcases hu with hu | ⟨u2, hu⟩
  · subst hu
    simp only [List.nil_append, atLineStarts, Bool.or_eq_true]
    exact Or.inl hm
  · subst hu
    simp only [atLineStarts, Bool.or_eq_true]
    refine Or.inr ?_
    have e : u2 ++ ['\n'] ++ pat ++ w = u2 ++ '\n' :: (pat ++ w) := by simp
    rw [e]
    exact lineStartsGo_after m u2 (pat ++ w) hm

theorem mem_splitNL_decomp (pat : List Char) :
    ∀ (l acc : List Char), pat ∈ splitNL acc l →
    ∃ u w, acc.reverse ++ l = u ++ pat ++ w
      ∧ (u = [] ∨ ∃ u2, u = u2 ++ ['\n'])
      ∧ (w = [] ∨ ∃ w2, w = '\n' :: w2) := by
  intro l
  induction l with
  | nil =>
    intro acc h
    simp only [splitNL, List.mem_singleton] at h
    subst h
    exact ⟨[], [], by simp, Or.inl rfl, Or.inl rfl⟩
  | cons c rest ih =>
    intro acc h
    by_cases hc : c = '\n'
    · subst hc
      simp only [splitNL, List.mem_cons] at h
      rcases h with h | h
      · subst h
        exact ⟨[], '\n' :: rest, by simp, Or.inl rfl, Or.inr ⟨rest, rfl⟩⟩
      · rcases ih [] h with ⟨u, w, he, hu, hw⟩
        simp only [List.reverse_nil, List.nil_append] at he
        refine ⟨acc.reverse ++ '\n' :: u, w, ?_, ?_, hw⟩
        · rw [he]; simp
        · rcases hu with hu | ⟨u2, hu⟩
          · subst hu
            exact Or.inr ⟨acc.reverse, by simp⟩
          · subst hu
            exact Or.inr ⟨acc.reverse ++ '\n' :: u2, by simp⟩
    · have e : splitNL acc (c :: rest) = splitNL (c :: acc) rest := by
        simp [splitNL, hc]
      rw [e] at h
      rcases ih (c :: acc) h with ⟨u, w, he, hu, hw⟩
      simp only [List.reverse_cons] at he
      refine ⟨u, w, ?_, hu, hw⟩
      rw [← he]
      simp

theorem ownLine_nexusOnlySearch (t : String) (h : "# NEXUS-ONLY" ∈ linesNL t) :
    nexusOnlySearch t = true := by
  unfold linesNL at h
  rcases List.mem_map.mp h with ⟨seg, hseg, he⟩
  have hseg2 : seg = "# NEXUS-ONLY".toList := by
    have := congrArg String.toList he
    simpa using this
  subst hseg2
  rcases mem_splitNL_decomp _ t.toList [] hseg with ⟨u, w, he2, hu, hw⟩
  simp only [List.reverse_nil, List.nil_append] at he2
  have hw2 : w = [] ∨ ∃ w2, w = '\n' :: w2 := hw
  unfold nexusOnlySearch
  rw [he2]
  exact atLineStarts_at nexusOnlyAt u w "# NEXUS-ONLY".toList hu (nexusOnlyAt_pat w hw2)

theorem filter_keep_noncode (cells : List Cell) :
    ((cells.filter keepCellCi).filter (fun c => c.cell_type ≠ "code"))
      = cells.filter (fun c => c.cell_type ≠ "code") := by
  induction cells with
  | nil => rfl
  | cons c rest ih =>
    by_cases hc : c.cell_type = "code"
    · by_cases hk : keepCellCi c = true
      · rw [List.filter_cons_of_pos hk, List.filter_cons_of_neg (by simp [hc]),
          List.filter_cons_of_neg (by simp [hc]), ih]
      · rw [List.filter_cons_of_neg (by simpa using hk),
          List.filter_cons_of_neg (by simp [hc]), ih]
    · have hk : keepCellCi c = true := by
        simp [keepCellCi, hc]
      rw [List.filter_cons_of_pos hk, List.filter_cons_of_pos (by simp [hc]),
        List.filter_cons_of_pos (by simp [hc]), ih]

/-- C6 (amended): for a notebook containing a code cell whose source has
`# NEXUS-ONLY` on its own line, `_tag_ci_skip_nexus_only` removes no cell
and rewrites that cell so that one `ci-skip` tag is appended to its tag
list — exactly one added provided the tag is not already present (when it
is present the list is left unchanged); `_remove_nexus_only_cells` removes
that cell entirely and never removes a non-code cell. -/
theorem C6_nexus_only_cells (nb : Notebook) (pre post : List Cell) (c0 : Cell)
    (hcells : nb.cells = pre ++ c0 :: post)
    (htype : c0.cell_type = "code")
    (hline : "# NEXUS-ONLY" ∈ linesNL c0.source.text)
    (htags : (c0.metadata.tags.getD []).contains "ci-skip" = false) :
    ((_tag_ci_skip_nexus_only nb).cells.length = nb.cells.length
      ∧ (_tag_ci_skip_nexus_only nb).cells
          = pre.map tagCellCi
            ++ { c0 with metadata := ⟨some ((c0.metadata.tags.getD []) ++ ["ci-skip"])⟩ }
            :: post.map tagCellCi)
    ∧ (c0 ∉ (_remove_nexus_only_cells nb).cells
      ∧ (_remove_nexus_only_cells nb).cells.filter (fun c => c.cell_type ≠ "code")
          = nb.cells.filter (fun c => c.cell_type ≠ "code")) := by
  have hsearch : nexusOnlySearch c0.source.text = true :=
    ownLine_nexusOnlySearch _ hline
  have htag : tagCellCi c0
      = { c0 with metadata := ⟨some ((c0.metadata.tags.getD []) ++ ["ci-skip"])⟩ } := by
    rw [tagCellCi, if_neg (by simp [htype]), if_neg (by simp [hsearch])]
    simp only [htags, Bool.false_eq_true, if_false]
  have hkeep : keepCellCi c0 = false := by
    simp [keepCellCi, htype, hsearch]
  refine ⟨⟨by simp [_tag_ci_skip_nexus_only], ?_⟩, ?_, ?_⟩
  · simp only [_tag_ci_skip_nexus_only, hcells, List.map_append, List.map_cons, htag]
  · intro hmem
    have hk := (List.mem_filter.mp hmem).2
    rw [hkeep] at hk
    exact Bool.false_ne_true hk
  · exact filter_keep_noncode nb.cells

theorem C6_nexus_only_cells_witness :
    ((_tag_ci_skip_nexus_only
        ⟨[⟨"code", .str "# NEXUS-ONLY", ⟨none⟩, [], none⟩,
          ⟨"markdown", .str "hello", ⟨none⟩, [], none⟩], ⟨none, none⟩, 4, 5⟩).cells.length
      = (⟨[⟨"code", .str "# NEXUS-ONLY", ⟨none⟩, [], none⟩,
          ⟨"markdown", .str "hello", ⟨none⟩, [], none⟩], ⟨none, none⟩, 4, 5⟩ : Notebook).cells.length
      ∧ (_tag_ci_skip_nexus_only
        ⟨[⟨"code", .str "# NEXUS-ONLY", ⟨none⟩, [], none⟩,
          ⟨"markdown", .str "hello", ⟨none⟩, [], none⟩], ⟨none, none⟩, 4, 5⟩).cells
          = ([] : List Cell).map tagCellCi
            ++ { (⟨"code", .str "# NEXUS-ONLY", ⟨none⟩, [], none⟩ : Cell) with
                  metadata := ⟨some ((((⟨"code", .str "# NEXUS-ONLY", ⟨none⟩, [], none⟩ : Cell)).metadata.tags.getD []) ++ ["ci-skip"])⟩ }
            :: [⟨"markdown", .str "hello", ⟨none⟩, [], none⟩].map tagCellCi)
    ∧ ((⟨"code", .str "# NEXUS-ONLY", ⟨none⟩, [], none⟩ : Cell) ∉ (_remove_nexus_only_cells
        ⟨[⟨"code", .str "# NEXUS-ONLY", ⟨none⟩, [], none⟩,
          ⟨"markdown", .str "hello", ⟨none⟩, [], none⟩], ⟨none, none⟩, 4, 5⟩).cells
      ∧ (_remove_nexus_only_cells
        ⟨[⟨"code", .str "# NEXUS-ONLY", ⟨none⟩, [], none⟩,
          ⟨"markdown", .str "hello", ⟨none⟩, [], none⟩], ⟨none, none⟩, 4, 5⟩).cells.filter
          (fun c => c.cell_type ≠ "code")
          = (⟨[⟨"code", .str "# NEXUS-ONLY", ⟨none⟩, [], none⟩,
          ⟨"markdown", .str "hello", ⟨none⟩, [], none⟩], ⟨none, none⟩, 4, 5⟩ : Notebook).cells.filter
          (fun c => c.cell_type ≠ "code")) :=
  C6_nexus_only_cells _ [] [⟨"markdown", .str "hello", ⟨none⟩, [], none⟩]
    ⟨"code", .str "# NEXUS-ONLY", ⟨none⟩, [], none⟩ rfl rfl (by decide) (by decide)

/-- C6, counterexample to the claim as stated: on a document whose matching
code cell already carries the `ci-skip` tag, the transform adds no tag at
all (the document is returned unchanged), so it does not add exactly one
`ci-skip` tag for every document with such a cell. -/
theorem C6_nexus_only_cells_cex :
    _tag_ci_skip_nexus_only
        ⟨[⟨"code", .str "# NEXUS-ONLY", ⟨some ["ci-skip"]⟩, [], none⟩], ⟨none, none⟩, 4, 5⟩
      = ⟨[⟨"code", .str "# NEXUS-ONLY", ⟨some ["ci-skip"]⟩, [], none⟩], ⟨none, none⟩, 4, 5⟩ := by
  decide

theorem listStarts_le_length (p : List Char) : ∀ l, listStarts p l = true → p.length ≤ l.length := by
  induction p with
  | nil => intro l _; simp
  | cons a as ih =>
    intro l h
    cases l with
    | nil => simp [listStarts] at h
    | cons c cs =>
      simp only [listStarts, Bool.and_eq_true] at h
      simpa using Nat.succ_le_succ (ih cs h.2)

theorem listStarts_isEmpty_nil (p : List Char) : listStarts p [] = p.isEmpty := by
  cases p <;> rfl

theorem findSubstr_none_iff (pat : List Char) :
    ∀ s, findSubstr pat s = none ↔ hasSub pat s = false := by
  intro s
  induction s with
  | nil =>
    simp only [findSubstr, hasSub, listStarts_isEmpty_nil]
    cases h : pat.isEmpty <;> simp [h]
  | cons c rest ih =>
    simp only [findSubstr, hasSub]
    cases h : listStarts pat (c :: rest)
    · simp only [Bool.false_eq_true, if_false, Bool.false_or]
      constructor
      · intro hmap
        cases hf : findSubstr pat rest with
        | none => exact ih.mp hf
        | some j => rw [hf] at hmap; cases hmap
      · intro hs
        rw [ih.mpr hs]
        rfl
    · simp

theorem findSubstr_some_le (pat : List Char) :
    ∀ s i, findSubstr pat s = some i → i + pat.length ≤ s.length := by
  intro s
  induction s with
  | nil =>
    intro i h
    simp only [findSubstr] at h
    by_cases hl : listStarts pat [] = true
    · rw [if_pos hl] at h
      cases h
      have := listStarts_le_length pat [] hl
      simpa using this
    · rw [if_neg hl] at h; cases h
  | cons c rest ih =>
    intro i h
    simp only [findSubstr] at h
    by_cases hl : listStarts pat (c :: rest) = true
    · rw [if_pos hl] at h
      cases h
      simpa using listStarts_le_length pat (c :: rest) hl
    · rw [if_neg hl] at h
      rcases Option.map_eq_some'.mp h with ⟨j, hj, he⟩
      subst he
      have := ih j hj
      simp only [List.length_cons]
      omega

theorem listStarts_decomp (p : List Char) :
    ∀ l, listStarts p l = true → l = p ++ l.drop p.length := by
  induction p with
  | nil => intro l _; simp
  | cons a as ih =>
    intro l h
    cases l with
    | nil => simp [listStarts] at h
    | cons c cs =>
      simp only [listStarts, Bool.and_eq_true, decide_eq_true_eq] at h
      have := ih cs h.2
      simp only [List.length_cons, List.drop_succ_cons, List.cons_append]
      rw [← h.1, ← this]

theorem findSubstr_decomp (pat : List Char) (hne : pat ≠ []) :
    ∀ s i, findSubstr pat s = some i →
      s = s.take i ++ pat ++ s.drop (i + pat.length)
      ∧ hasSub pat (s.take i) = false := by
  intro s
  induction s with
  | nil =>
    intro i h
    simp only [findSubstr, listStarts_isEmpty_nil] at h
    by_cases hp : pat.isEmpty = true
    · exact absurd (List.isEmpty_iff.mp hp) hne
    · rw [if_neg (by simp [hp])] at h; cases h
  | cons c rest ih =>
    intro i h
    simp only [findSubstr] at h
    by_cases hl : listStarts pat (c :: rest) = true
    · rw [if_pos hl] at h
      cases h
      constructor
      · simpa using listStarts_decomp pat (c :: rest) hl
      · cases pat with
        | nil => exact absurd rfl hne
        | cons p ps => rfl
    · rw [if_neg hl] at h
      rcases Option.map_eq_some'.mp h with ⟨j, hj, he⟩
      subst he
      rcases ih j hj with ⟨hdec, hfree⟩
      constructor
      · have e2 : j + 1 + pat.length = (j + pat.length) + 1 := by omega
        simp only [List.take_succ_cons, e2, List.drop_succ_cons, List.cons_append]
        rw [← hdec]
      · simp only [List.take_succ_cons, hasSub, Bool.or_eq_true, hfree]
        cases hls : listStarts pat (c :: rest.take j)
        · simp
        · exfalso
          have : listStarts pat (c :: rest) = true := by
            have e : c :: rest = (c :: rest.take j) ++ rest.drop j := by
              simp [List.take_append_drop]
            rw [e]
            exact listStarts_append pat _ _ hls
          exact hl this

theorem listStarts_take (p : List Char) : ∀ (l y : List Char),
    listStarts p (l ++ y) = true → p.length ≤ l.length → listStarts p l = true := by
  induction p with
  | nil => intro l y _ _; rfl
  | cons a as ih =>
    intro l y h hle
    cases l with
    | nil => simp at hle
    | cons c cs =>
      simp only [List.cons_append, listStarts, Bool.and_eq_true] at h ⊢
      exact ⟨h.1, ih cs y h.2 (by simpa using hle)⟩

theorem listStarts_get (p : List Char) : ∀ (l : List Char), listStarts p l = true →
    ∀ i, i < p.length → p[i]? = l[i]? := by
  induction p with
  | nil => intro l _ i hi; simp at hi
  | cons a as ih =>
    intro l h i hi
    cases l with
    | nil => simp [listStarts] at h
    | cons c cs =>
      simp only [listStarts, Bool.and_eq_true, decide_eq_true_eq] at h
      cases i with
      | zero => simp [h.1]
      | succ j =>
        simp only [List.getElem?_cons_succ]
        exact ih cs h.2 j (by simpa using hi)

theorem memOfIdx (l : List Char) : ∀ (i : Nat) (a : Char), l[i]? = some a → a ∈ l := by
  induction l with
  | nil => intro i a h; simp at h
  | cons x xs ih =>
    intro i a h
    cases i with
    | zero =>
      simp only [List.getElem?_cons_zero, Option.some.injEq] at h
      exact h ▸ List.mem_cons_self x xs
    | succ j =>
      simp only [List.getElem?_cons_succ] at h
      exact List.mem_cons_of_mem x (ih j a h)

theorem findSubstr_at (h : Char) (tl : List Char) (hh : h ∉ tl) :
    ∀ (a x : List Char), hasSub (h :: tl) a = false →
    findSubstr (h :: tl) (a ++ (h :: tl) ++ x) = some a.length := by
  intro a
  induction a with
  | nil =>
    intro x _
    simp only [List.nil_append, List.length_nil]
    simp only [findSubstr]
    rw [if_pos]
    exact listStarts_append _ _ _ (listStarts_refl _)
  | cons c a' ih =>
    intro x hfree
    simp only [hasSub, Bool.or_eq_false_iff] at hfree
    have hls0 : listStarts (h :: tl) (c :: a') = false := hfree.1
    have hfree2 : hasSub (h :: tl) a' = false := hfree.2
    have hnotls : listStarts (h :: tl) (c :: (a' ++ (h :: tl) ++ x)) = false := by
      cases hq : listStarts (h :: tl) (c :: (a' ++ (h :: tl) ++ x))
      · rfl
      · exfalso
        simp only [listStarts, Bool.and_eq_true, decide_eq_true_eq] at hq
        obtain ⟨hc, hrest⟩ := hq
        by_cases hlen : tl.length ≤ a'.length
        · have hta : listStarts tl a' = true := by
            have e : a' ++ (h :: tl) ++ x = a' ++ ((h :: tl) ++ x) := by simp
            rw [e] at hrest
            exact listStarts_take tl a' _ hrest hlen
          have : listStarts (h :: tl) (c :: a') = true := by
            simp [listStarts, hc, hta]
          rw [hls0] at this
          cases this
        · push_neg at hlen
          have hg := listStarts_get tl (a' ++ (h :: tl) ++ x) hrest a'.length hlen
          have hr : (a' ++ (h :: tl) ++ x)[a'.length]? = some h := by
            have e : a' ++ (h :: tl) ++ x = a' ++ ((h :: tl) ++ x) := by simp
            rw [e, List.getElem?_append_right (Nat.le_refl _)]
            simp
          rw [hr] at hg
          exact hh (memOfIdx tl a'.length h hg)
    have e : (c :: a') ++ (h :: tl) ++ x = c :: (a' ++ (h :: tl) ++ x) := by simp
    rw [e]
    simp only [findSubstr, hnotls, Bool.false_eq_true, if_false]
    rw [ih x hfree2]
    rfl

theorem footerSubGo_irrel (repl : List Char) (n : Nat) : ∀ (m : Nat) (s : List Char),
    s.length ≤ n → s.length ≤ m → footerSubGo repl n s = footerSubGo repl m s := by
  induction n with
  | zero =>
    intro m s hn hm
    have hs : s = [] := List.eq_nil_of_length_eq_zero (Nat.le_zero.mp hn)
    subst hs
    cases m with
    | zero => rfl
    | succ m =>
      simp only [footerSubGo]
      rw [show findSubstr startMarker.toList [] = none from rfl]
  | succ n ih =>
    intro m s hn hm
    cases m with
    | zero =>
      have hs : s = [] := List.eq_nil_of_length_eq_zero (Nat.le_zero.mp hm)
      subst hs
      simp only [footerSubGo]
      rw [show findSubstr startMarker.toList [] = none from rfl]
    | succ m =>
      simp only [footerSubGo]
      cases h1 : findSubstr startMarker.toList s with
      | none => rfl
      | some i =>
        simp only []
        cases h2 : findSubstr endMarker.toList (s.drop (i + startMarker.toList.length)) with
        | none => rfl
        | some j =>
          have hi := findSubstr_some_le _ _ _ h1
          have hj := findSubstr_some_le _ _ _ h2
          have hsm : 0 < startMarker.toList.length := by decide
          show List.take i s ++ repl
              ++ footerSubGo repl n
                ((s.drop (i + startMarker.toList.length)).drop (j + endMarker.toList.length))
            = List.take i s ++ repl
              ++ footerSubGo repl m
                ((s.drop (i + startMarker.toList.length)).drop (j + endMarker.toList.length))
          rw [ih m ((s.drop (i + startMarker.toList.length)).drop (j + endMarker.toList.length))
            (by simp only [List.length_drop] at hj ⊢; omega)
            (by simp only [List.length_drop] at hj ⊢; omega)]

theorem footerSub_noStart (repl s : List Char) (h : hasSub startMarker.toList s = false) :
    footerSubL repl s = s := by
  unfold footerSubL
  cases hn : s.length with
  | zero => rfl
  | succ k =>
    simp only [footerSubGo]
    rw [(findSubstr_none_iff _ s).mpr h]

theorem footerSub_step (repl a v w : List Char)
    (ha : hasSub startMarker.toList a = false)
    (hv : hasSub endMarker.toList v = false) :
    footerSubL repl (a ++ startMarker.toList ++ v ++ endMarker.toList ++ w)
      = a ++ repl ++ footerSubL repl w := by
  have easc : a ++ startMarker.toList ++ v ++ endMarker.toList ++ w
      = a ++ startMarker.toList ++ (v ++ endMarker.toList ++ w) := by simp
  have h1 : findSubstr startMarker.toList
      (a ++ startMarker.toList ++ v ++ endMarker.toList ++ w) = some a.length := by
    rw [easc]
    have eSM : startMarker.toList = '<' :: "!-- Footer Start -->".toList := by decide
    rw [eSM]
    exact findSubstr_at '<' "!-- Footer Start -->".toList (by decide) a
      (v ++ endMarker.toList ++ w) (by rw [eSM] at ha; exact ha)
  have h3 : (a ++ startMarker.toList ++ v ++ endMarker.toList ++ w).drop
      (a.length + startMarker.toList.length) = v ++ endMarker.toList ++ w := by
    have e : a ++ startMarker.toList ++ v ++ endMarker.toList ++ w
        = (a ++ startMarker.toList) ++ (v ++ endMarker.toList ++ w) := by simp
    have e2 : a.length + startMarker.toList.length = (a ++ startMarker.toList).length := by
      simp
    rw [e, e2, List.drop_left]
  have h4 : findSubstr endMarker.toList (v ++ endMarker.toList ++ w) = some v.length := by
    have eEM : endMarker.toList = '<' :: "!-- Footer End -->".toList := by decide
    rw [eEM]
    exact findSubstr_at '<' "!-- Footer End -->".toList (by decide) v w
      (by rw [eEM] at hv; exact hv)
  have h2 : (a ++ startMarker.toList ++ v ++ endMarker.toList ++ w).take a.length = a := by
    have e : a ++ startMarker.toList ++ v ++ endMarker.toList ++ w
        = a ++ (startMarker.toList ++ v ++ endMarker.toList ++ w) := by simp
    rw [e]
    exact List.take_left a _
  have h5 : (v ++ endMarker.toList ++ w).drop (v.length + endMarker.toList.length) = w := by
    have e : v ++ endMarker.toList ++ w = (v ++ endMarker.toList) ++ w := by simp
    have e2 : v.length + endMarker.toList.length = (v ++ endMarker.toList).length := by simp
    rw [e, e2, List.drop_left]
  unfold footerSubL
  cases hn : (a ++ startMarker.toList ++ v ++ endMarker.toList ++ w).length with
  | zero =>
    exfalso
    simp only [List.length_append] at hn
    have hsm : 0 < startMarker.toList.length := by decide
    omega
  | succ n =>
    simp only [footerSubGo, h1, h3, h4, h2, h5]
    have hb : w.length ≤ n := by
      simp only [List.length_append] at hn
      have hsm : 0 < startMarker.toList.length := by decide
      omega
    rw [footerSubGo_irrel repl n w.length w hb le_rfl]


/-! ### Footer insertion (C5) -/

theorem insertFooterCells_skip (footer : String) (pre rest : List Cell)
    (hp : ∀ c ∈ pre, ¬(c.cell_type = "markdown" ∧ containsSub startMarker c.source.text = true)) :
    insertFooterCells footer (pre ++ rest)
      = (pre ++ (insertFooterCells footer rest).1, (insertFooterCells footer rest).2) := by
  induction pre with
  | nil => simp
  | cons c pre ih =>
    have hc := hp c (by simp)
    have ih2 := ih (fun x hx => hp x (by simp [hx]))
    simp only [List.cons_append, insertFooterCells]
    rw [if_neg hc]
    simp [ih2]

theorem insertFooterCells_found_str (footer : String) (c : Cell) (rest : List Cell) (s : String)
    (hs : c.source = SrcVal.str s)
    (h : c.cell_type = "markdown" ∧ containsSub startMarker c.source.text = true) :
    insertFooterCells footer (c :: rest)
      = ({ c with source := SrcVal.str (footerSub footer s) } :: rest, true) := by
  simp only [insertFooterCells]
  rw [if_pos h, hs]
  rfl

theorem footerSub_decomp (footer : String) (u v w : List Char)
    (hu : hasSub startMarker.toList u = false)
    (hv : hasSub endMarker.toList v = false)
    (hw : hasSub startMarker.toList w = false) :
    footerSub footer ((u ++ startMarker.toList ++ v ++ endMarker.toList ++ w).asString)
      = (u ++ footer.toList ++ w).asString := by
  unfold footerSub
  have e : ((u ++ startMarker.toList ++ v ++ endMarker.toList ++ w).asString).toList
      = u ++ startMarker.toList ++ v ++ endMarker.toList ++ w := rfl
  rw [e, footerSub_step footer.toList u v w hu hv, footerSub_noStart footer.toList w hw]

theorem hasSub_sandwich (p u rest : List Char) : hasSub p (u ++ p ++ rest) = true := by
  have e : u ++ p ++ rest = u ++ (p ++ rest) := by simp
  rw [e]
  exact hasSub_append_right p u (p ++ rest)
    (listStarts_hasSub p (p ++ rest) (listStarts_append p p rest (listStarts_refl p)))

theorem insertFooter_append (footer : String) (nb : Notebook) (hf : ¬footer = "")
    (hall : ∀ c ∈ nb.cells, ¬(c.cell_type = "markdown" ∧ containsSub startMarker c.source.text = true)) :
    _insert_rrn_footer footer nb
      = { nb with cells := nb.cells
            ++ [⟨"markdown", .list (pySplitlinesKeep footer), ⟨none⟩, [], none⟩] } := by
  have hnone : insertFooterCells footer nb.cells = (nb.cells, false) := by
    have h := insertFooterCells_skip footer nb.cells [] hall
    simpa [insertFooterCells] using h
  simp [_insert_rrn_footer, if_neg hf, hnone]

theorem insertFooter_replace (footer : String) (nb : Notebook) (hf : ¬footer = "")
    (pre : List Cell) (c : Cell) (post : List Cell) (u v w : List Char)
    (hcells : nb.cells = pre ++ c :: post)
    (hpre : ∀ c' ∈ pre, ¬(c'.cell_type = "markdown" ∧ containsSub startMarker c'.source.text = true))
    (hmd : c.cell_type = "markdown")
    (hsrc : c.source = SrcVal.str ((u ++ startMarker.toList ++ v ++ endMarker.toList ++ w).asString))
    (hu : hasSub startMarker.toList u = false)
    (hv : hasSub endMarker.toList v = false)
    (hw : hasSub startMarker.toList w = false) :
    _insert_rrn_footer footer nb
      = { nb with cells := pre
            ++ { c with source := SrcVal.str ((u ++ footer.toList ++ w).asString) } :: post } := by
  have htext : containsSub startMarker c.source.text = true := by
    rw [hsrc]
    show hasSub startMarker.toList (u ++ startMarker.toList ++ v ++ endMarker.toList ++ w) = true
    have e : u ++ startMarker.toList ++ v ++ endMarker.toList ++ w
        = u ++ startMarker.toList ++ (v ++ endMarker.toList ++ w) := by simp
    rw [e]
    exact hasSub_sandwich startMarker.toList u (v ++ endMarker.toList ++ w)
  have hfound := insertFooterCells_found_str footer c post
    ((u ++ startMarker.toList ++ v ++ endMarker.toList ++ w).asString) hsrc ⟨hmd, htext⟩
  rw [footerSub_decomp footer u v w hu hv hw] at hfound
  have hskip := insertFooterCells_skip footer pre (c :: post) hpre
  simp only [_insert_rrn_footer, if_neg hf, hcells, hskip, hfound]
  simp

/-- C5 (amended): with a nonempty footer template, `_insert_rrn_footer`
appends exactly one markdown cell holding the template when no markdown cell
contains the start marker; and the replacement keys on the FIRST markdown
cell whose text contains the start marker: when that cell carries a string
source decomposing as `u ++ start ++ v ++ end ++ w` with `u`, `w` free of the
start marker and `v` free of the end marker, the delimited region is replaced
by the template and the cell count is unchanged. -/
theorem C5_insert_footer (footer : String) (nb : Notebook) (hf : ¬footer = "") :
    ((∀ c ∈ nb.cells, ¬(c.cell_type = "markdown" ∧ containsSub startMarker c.source.text = true)) →
      (_insert_rrn_footer footer nb).cells
        = nb.cells ++ [⟨"markdown", .list (pySplitlinesKeep footer), ⟨none⟩, [], none⟩])
    ∧ (∀ pre c post u v w,
        nb.cells = pre ++ c :: post →
        (∀ c' ∈ pre, ¬(c'.cell_type = "markdown" ∧ containsSub startMarker c'.source.text = true)) →
        c.cell_type = "markdown" →
        c.source = SrcVal.str ((u ++ startMarker.toList ++ v ++ endMarker.toList ++ w).asString) →
        hasSub startMarker.toList u = false →
        hasSub endMarker.toList v = false →
        hasSub startMarker.toList w = false →
        (_insert_rrn_footer footer nb).cells
            = pre ++ { c with source := SrcVal.str ((u ++ footer.toList ++ w).asString) } :: post
          ∧ (_insert_rrn_footer footer nb).cells.length = nb.cells.length) := by
  constructor
  · intro hall
    rw [insertFooter_append footer nb hf hall]
  · intro pre c post u v w hcells hpre hmd hsrc hu hv hw
    have hres := insertFooter_replace footer nb hf pre c post u v w hcells hpre hmd hsrc hu hv hw
    have hc : (_insert_rrn_footer footer nb).cells
        = pre ++ { c with source := SrcVal.str ((u ++ footer.toList ++ w).asString) } :: post := by
      rw [hres]
    refine ⟨hc, ?_⟩
    rw [hc, hcells]
    simp

theorem C5_insert_footer_witness :
    (_insert_rrn_footer "F"
        ⟨[⟨"markdown", SrcVal.str "a<!-- Footer Start -->mid<!-- Footer End -->tail",
            ⟨none⟩, [], none⟩], ⟨none, none⟩, 4, 5⟩).cells
      = [⟨"markdown", SrcVal.str (("a".toList ++ "F".toList ++ "tail".toList).asString),
          ⟨none⟩, [], none⟩] := by
  have h := (C5_insert_footer "F"
      ⟨[⟨"markdown", SrcVal.str "a<!-- Footer Start -->mid<!-- Footer End -->tail",
          ⟨none⟩, [], none⟩], ⟨none, none⟩, 4, 5⟩ (by decide)).2
      [] ⟨"markdown", SrcVal.str "a<!-- Footer Start -->mid<!-- Footer End -->tail",
          ⟨none⟩, [], none⟩ []
      "a".toList "mid".toList "tail".toList rfl (by intro c hc; cases hc) rfl
      (by decide) (by decide) (by decide) (by decide)
  simpa using h.1

/-- C5 counterexample: the code keys on the start marker alone and stops at
the first such markdown cell.  Here the first cell contains only the start
marker, so the substitution finds no end marker and leaves it unchanged,
while the second cell - the first one containing the full marker PAIR -
is never touched: the document is returned entirely unchanged, refuting the
claim that the region between the markers in the first pair-bearing cell is
replaced by the template. -/
theorem C5_insert_footer_cex :
    (containsSub startMarker "<!-- Footer Start --><!-- Footer End -->" = true
      ∧ containsSub endMarker "<!-- Footer Start --><!-- Footer End -->" = true)
    ∧ (_insert_rrn_footer "F"
        ⟨[⟨"markdown", SrcVal.str "x<!-- Footer Start -->y", ⟨none⟩, [], none⟩,
          ⟨"markdown", SrcVal.str "<!-- Footer Start --><!-- Footer End -->", ⟨none⟩, [], none⟩],
          ⟨none, none⟩, 4, 5⟩).cells
      = [⟨"markdown", SrcVal.str "x<!-- Footer Start -->y", ⟨none⟩, [], none⟩,
         ⟨"markdown", SrcVal.str "<!-- Footer Start --><!-- Footer End -->", ⟨none⟩, [], none⟩] := by
  constructor
  · constructor <;> decide
  · decide


/-! ### Idempotence (C8) -/

theorem clear_outputs_idem (nb : Notebook) :
    _clear_outputs (_clear_outputs nb) = _clear_outputs nb := by
  simp only [_clear_outputs, List.map_map]
  congr 1
  apply List.map_congr_left
  intro c _
  by_cases h : c.cell_type = "code" <;> simp [Function.comp, h]

/-- C8 (amended): `_clear_outputs` is idempotent on every notebook; and
`_insert_rrn_footer` is idempotent on a document whose first start-marker
markdown cell carries a well-delimited footer region, PROVIDED the footer
template itself has the canonical shape: it begins with the start marker,
ends with the end marker, and its interior is free of the end marker. -/
theorem C8_idempotence (footer : String) (nb : Notebook) :
    _clear_outputs (_clear_outputs nb) = _clear_outputs nb
    ∧ (∀ mid pre c post u v w,
        footer.toList = startMarker.toList ++ mid ++ endMarker.toList →
        hasSub endMarker.toList mid = false →
        nb.cells = pre ++ c :: post →
        (∀ c' ∈ pre, ¬(c'.cell_type = "markdown" ∧ containsSub startMarker c'.source.text = true)) →
        c.cell_type = "markdown" →
        c.source = SrcVal.str ((u ++ startMarker.toList ++ v ++ endMarker.toList ++ w).asString) →
        hasSub startMarker.toList u = false →
        hasSub endMarker.toList v = false →
        hasSub startMarker.toList w = false →
        _insert_rrn_footer footer (_insert_rrn_footer footer nb)
          = _insert_rrn_footer footer nb) := by
  refine ⟨clear_outputs_idem nb, ?_⟩
  intro mid pre c post u v w hshape hmid hcells hpre hmd hsrc hu hv hw
  have hf : ¬footer = "" := by
    intro he
    rw [he] at hshape
    have hlen : (startMarker.toList ++ mid ++ endMarker.toList).length = 0 := by
      rw [← hshape]
      rfl
    simp only [List.length_append] at hlen
    have hsm : 0 < startMarker.toList.length := by decide
    omega
  have h1 := insertFooter_replace footer nb hf pre c post u v w hcells hpre hmd hsrc hu hv hw
  rw [h1]
  set c1 : Cell := { c with source := SrcVal.str ((u ++ footer.toList ++ w).asString) } with hc1
  have e : u ++ footer.toList ++ w
      = u ++ startMarker.toList ++ mid ++ endMarker.toList ++ w := by
    rw [hshape]
    simp
  have hsrc1 : c1.source
      = SrcVal.str ((u ++ startMarker.toList ++ mid ++ endMarker.toList ++ w).asString) := by
    rw [hc1, e]
  have h2 := insertFooter_replace footer { nb with cells := pre ++ c1 :: post } hf
    pre c1 post u mid w rfl hpre hmd hsrc1 hu hmid hw
  rw [h2]

theorem C8_idempotence_witness :
    _insert_rrn_footer "<!-- Footer Start -->m<!-- Footer End -->"
        (_insert_rrn_footer "<!-- Footer Start -->m<!-- Footer End -->"
          ⟨[⟨"markdown", SrcVal.str "a<!-- Footer Start -->v<!-- Footer End -->b",
              ⟨none⟩, [], none⟩], ⟨none, none⟩, 4, 5⟩)
      = _insert_rrn_footer "<!-- Footer Start -->m<!-- Footer End -->"
          ⟨[⟨"markdown", SrcVal.str "a<!-- Footer Start -->v<!-- Footer End -->b",
              ⟨none⟩, [], none⟩], ⟨none, none⟩, 4, 5⟩ :=
  (C8_idempotence "<!-- Footer Start -->m<!-- Footer End -->"
      ⟨[⟨"markdown", SrcVal.str "a<!-- Footer Start -->v<!-- Footer End -->b",
          ⟨none⟩, [], none⟩], ⟨none, none⟩, 4, 5⟩).2
    "m".toList [] _ [] "a".toList "v".toList "b".toList
    (by decide) (by decide) rfl (by intro x hx; cases hx) rfl (by decide)
    (by decide) (by decide) (by decide)

/-- C8 counterexample: the loader only checks that the footer template
CONTAINS both markers, not that it is delimited by them.  With the template
"x<!-- Footer Start -->y<!-- Footer End -->z" (which passes that check) and a
document already carrying the marker pair, a second application replaces the
delimited span inside the first application's output and yields a strictly
longer text, refuting unconditional idempotence of the insert-footer
transform on marker-bearing documents. -/
theorem C8_idempotence_cex :
    (containsSub startMarker "x<!-- Footer Start -->y<!-- Footer End -->z" = true
      ∧ containsSub endMarker "x<!-- Footer Start -->y<!-- Footer End -->z" = true)
    ∧ ¬(_insert_rrn_footer "x<!-- Footer Start -->y<!-- Footer End -->z"
          (_insert_rrn_footer "x<!-- Footer Start -->y<!-- Footer End -->z"
            ⟨[⟨"markdown", SrcVal.str "<!-- Footer Start --><!-- Footer End -->",
                ⟨none⟩, [], none⟩], ⟨none, none⟩, 4, 5⟩)
        = _insert_rrn_footer "x<!-- Footer Start -->y<!-- Footer End -->z"
            ⟨[⟨"markdown", SrcVal.str "<!-- Footer Start --><!-- Footer End -->",
                ⟨none⟩, [], none⟩], ⟨none, none⟩, 4, 5⟩) := by
  refine ⟨⟨by decide, by decide⟩, ?_⟩
  decide


/-! ### Build orchestrator: staleness and sync ordering (C4, C9) -/

theorem fsGet_fsSet_self (fs : FS) (p : String) (fi : FileInfo) :
    fsGet (fsSet fs p fi) p = some fi := by
  induction fs with
  | nil => simp [fsSet, fsGet]
  | cons hd rest ih =>
    obtain ⟨q, g⟩ := hd
    by_cases h : p = q
    · simp [fsSet, fsGet, h]
    · simp [fsSet, fsGet, h, ih]

theorem fsGet_fsSet_ne (fs : FS) (p q : String) (fi : FileInfo) (h : ¬q = p) :
    fsGet (fsSet fs p fi) q = fsGet fs q := by
  induction fs with
  | nil => simp [fsSet, fsGet, h]
  | cons hd rest ih =>
    obtain ⟨r, g⟩ := hd
    by_cases h2 : p = r
    · subst h2
      simp [fsSet, fsGet, h]
    · by_cases h3 : q = r
      · simp [fsSet, fsGet, h2, h3]
      · simp [fsSet, fsGet, h2, h3, ih]

theorem processNotebookRrn_skip (P : BuildParams) (fs : FS) (e : Entry) (d s : FileInfo)
    (hnosync : "sync" ∉ rrnTransformsOf e)
    (hdest : fsGet fs ("RRN/build/" ++ e.id ++ ".ipynb") = some d)
    (hsrc : fsGet fs e.source_path = some s)
    (hlt : s.mtime < d.mtime) :
    processNotebookRrn P false fs e = .ok (fs, [], none) := by
  simp only [processNotebookRrn, if_neg hnosync, hdest, hsrc]
  simp [hlt]

theorem processNotebookCi_skip (P : BuildParams) (fs : FS) (e : Entry) (d s : FileInfo)
    (hdest : fsGet fs ("RRN/ci_build/" ++ e.id ++ ".ipynb") = some d)
    (hsrc : fsGet fs e.source_path = some s)
    (hlt : s.mtime < d.mtime) :
    processNotebookCi P false fs e = .ok (fs, [], none) := by
  simp only [processNotebookCi, hdest, hsrc]
  simp [hlt]


theorem buildRrnNotebooks_skipAll (P : BuildParams) (ids : Option (List String)) (fs : FS)
    (es : List Entry)
    (h : ∀ e ∈ es, idExcluded ids e.id = false → e.nexus_support.getD false = true →
      "sync" ∉ rrnTransformsOf e
        ∧ ∃ d s, fsGet fs ("RRN/build/" ++ e.id ++ ".ipynb") = some d
            ∧ fsGet fs e.source_path = some s ∧ s.mtime < d.mtime) :
    buildRrnNotebooks P ids false fs es = .ok (fs, [], []) := by
  induction es with
  | nil => rfl
  | cons e rest ih =>
    have ih2 := ih (fun x hx => h x (by simp [hx]))
    simp only [buildRrnNotebooks]
    by_cases hex : idExcluded ids e.id = true
    · rw [if_pos hex]
      exact ih2
    · rw [if_neg hex]
      by_cases hns : e.nexus_support.getD false = true
      · obtain ⟨hnosync, d, s, hdest, hsrc, hlt⟩ :=
          h e (by simp) (by simpa using hex) hns
        rw [if_neg (by simp [hns])]
        rw [processNotebookRrn_skip P fs e d s hnosync hdest hsrc hlt]
        simp [ih2]
      · rw [if_pos (by simpa using hns)]
        exact ih2

theorem buildCiNotebooks_skipAll (P : BuildParams) (ids : Option (List String)) (fs : FS)
    (es : List Entry)
    (h : ∀ e ∈ es, idExcluded ids e.id = false → ¬e.ci_support = some false → e.colab_na = false →
      ∃ d s, fsGet fs ("RRN/ci_build/" ++ e.id ++ ".ipynb") = some d
        ∧ fsGet fs e.source_path = some s ∧ s.mtime < d.mtime) :
    buildCiNotebooks P ids false fs es = .ok ([], fs, []) := by
  induction es with
  | nil => rfl
  | cons e rest ih =>
    have ih2 := ih (fun x hx => h x (by simp [hx]))
    simp only [buildCiNotebooks]
    by_cases hex : idExcluded ids e.id = true
    · rw [if_pos hex]
      exact ih2
    · rw [if_neg hex]
      by_cases hcs : e.ci_support = some false
      · rw [if_pos hcs]
        exact ih2
      · rw [if_neg hcs]
        by_cases hcn : e.colab_na = true
        · rw [if_pos hcn]
          exact ih2
        · obtain ⟨d, s, hdest, hsrc, hlt⟩ :=
            h e (by simp) (by simpa using hex) hcs (by simpa using hcn)
          rw [if_neg hcn]
          rw [processNotebookCi_skip P fs e d s hdest hsrc hlt]
          simp [ih2]


/-- C4 (amended): for NOTEBOOK entries the staleness rule holds in both
builds: with force unset, every eligible notebook entry whose destination
exists and is strictly newer than its source - and whose transform list does
not request a source sync - is skipped with no transform applied, no file
touched and nothing reported written, so a notebooks-only second build
reports zero entries written and leaves the file system unchanged.  Script
and `other` entries, by contrast, append their destination to the returned
written list even when the staleness check skips the copy. -/
theorem C4_staleness_skip (P : BuildParams) (m : Manifest) (ids : Option (List String)) (fs : FS)
    (hscripts : m.scripts = []) (hother : m.other = [])
    (hrrn : ∀ e ∈ m.notebooks, idExcluded ids e.id = false → e.nexus_support.getD false = true →
      "sync" ∉ rrnTransformsOf e
        ∧ ∃ d s, fsGet fs ("RRN/build/" ++ e.id ++ ".ipynb") = some d
            ∧ fsGet fs e.source_path = some s ∧ s.mtime < d.mtime)
    (hci : ∀ e ∈ m.notebooks, idExcluded ids e.id = false → ¬e.ci_support = some false →
      e.colab_na = false →
      ∃ d s, fsGet fs ("RRN/ci_build/" ++ e.id ++ ".ipynb") = some d
        ∧ fsGet fs e.source_path = some s ∧ s.mtime < d.mtime) :
    build_rrn P m ids false fs = .ok ([], fs, [])
      ∧ build_ci P m ids false fs = .ok ([], fs, []) := by
  constructor
  · simp [build_rrn, buildRrnNotebooks_skipAll P ids fs m.notebooks hrrn, hscripts, hother,
      buildRrnScripts, buildRrnOther]
  · simp [build_ci, buildCiNotebooks_skipAll P ids fs m.notebooks hci]

theorem C4_staleness_skip_witness :
    build_rrn ⟨"F", fun nb _ => Except.ok nb, fun s => s, fun _ => ⟨0, FileData.raw⟩, 100⟩
        ⟨[⟨"n1", "src", some true, none, false, ["clear_outputs"], [], none, none, none, [], none⟩],
          [], []⟩
        none false
        [("src", ⟨3, FileData.raw⟩), ("RRN/build/n1.ipynb", ⟨10, FileData.raw⟩),
         ("RRN/ci_build/n1.ipynb", ⟨10, FileData.raw⟩)]
      = Except.ok ([],
          [("src", ⟨3, FileData.raw⟩), ("RRN/build/n1.ipynb", ⟨10, FileData.raw⟩),
           ("RRN/ci_build/n1.ipynb", ⟨10, FileData.raw⟩)], [])
    ∧ build_ci ⟨"F", fun nb _ => Except.ok nb, fun s => s, fun _ => ⟨0, FileData.raw⟩, 100⟩
        ⟨[⟨"n1", "src", some true, none, false, ["clear_outputs"], [], none, none, none, [], none⟩],
          [], []⟩
        none false
        [("src", ⟨3, FileData.raw⟩), ("RRN/build/n1.ipynb", ⟨10, FileData.raw⟩),
         ("RRN/ci_build/n1.ipynb", ⟨10, FileData.raw⟩)]
      = Except.ok ([],
          [("src", ⟨3, FileData.raw⟩), ("RRN/build/n1.ipynb", ⟨10, FileData.raw⟩),
           ("RRN/ci_build/n1.ipynb", ⟨10, FileData.raw⟩)], []) :=
  C4_staleness_skip _ _ none _ rfl rfl
    (by
      intro e he h1 h2
      simp only [List.mem_singleton] at he
      subst he
      exact ⟨by decide, ⟨10, FileData.raw⟩, ⟨3, FileData.raw⟩, by decide, by decide, by decide⟩)
    (by
      intro e he h1 h2 h3
      simp only [List.mem_singleton] at he
      subst he
      exact ⟨⟨10, FileData.raw⟩, ⟨3, FileData.raw⟩, by decide, by decide, by decide⟩)

/-- C4 counterexample: a SCRIPT entry skipped as up to date (destination
newer, force unset) still has its destination appended to the returned
written list, so a second build over current artifacts does not report zero
entries written - refuting the claim for script (and `other`) entries. -/
theorem C4_staleness_skip_cex :
    build_rrn ⟨"F", fun nb _ => Except.ok nb, fun s => s, fun _ => ⟨0, FileData.raw⟩, 100⟩
        ⟨[], [⟨"s1", "tool.py", some true, none, false, [], [], none, none, none, [], none⟩], []⟩
        none false
        [("tool.py", ⟨3, FileData.text "print(1)"⟩), ("RRN/build/s1.ipynb", ⟨10, FileData.raw⟩)]
      = Except.ok (["RRN/build/s1.ipynb"],
          [("tool.py", ⟨3, FileData.text "print(1)"⟩), ("RRN/build/s1.ipynb", ⟨10, FileData.raw⟩)],
          []) := by
  rfl

/-- C9: in the notebook loop of `build_rrn`, a requested source sync is
performed BEFORE the staleness check: an entry whose transform list contains
"sync" refreshes its source file from the upstream URL (a file-system write
plus a sync event) even when the entry is then skipped as up to date, with
no transform applied and no artifact written. -/
theorem C9_sync_before_staleness (P : BuildParams) (fs : FS) (e : Entry) (url : String)
    (d : FileInfo)
    (hsync : "sync" ∈ rrnTransformsOf e)
    (hurl : e.upstream_url = some url)
    (hu : ¬url = "") (hs : ¬e.source_path = "")
    (hne : ¬("RRN/build/" ++ e.id ++ ".ipynb") = e.source_path)
    (hdest : fsGet fs ("RRN/build/" ++ e.id ++ ".ipynb") = some d)
    (hnew : (P.fetch url).mtime < d.mtime) :
    processNotebookRrn P false fs e
      = .ok (fsSet fs e.source_path (P.fetch url), [Ev.sync url e.source_path], none) := by
  have hsync2 : _sync_source P fs e
      = .ok (fsSet fs e.source_path (P.fetch url), [Ev.sync url e.source_path]) := by
    simp only [_sync_source, hurl]
    rw [if_neg (by simp [hu, hs])]
  have hget1 : fsGet (fsSet fs e.source_path (P.fetch url)) ("RRN/build/" ++ e.id ++ ".ipynb")
      = some d := by
    rw [fsGet_fsSet_ne fs e.source_path _ (P.fetch url) hne]
    exact hdest
  have hget2 : fsGet (fsSet fs e.source_path (P.fetch url)) e.source_path = some (P.fetch url) :=
    fsGet_fsSet_self fs e.source_path (P.fetch url)
  simp only [processNotebookRrn, if_pos hsync, hsync2, hget1, hget2]
  simp [hnew]

theorem C9_sync_before_staleness_witness :
    processNotebookRrn ⟨"F", fun nb _ => Except.ok nb, fun s => s, fun _ => ⟨5, FileData.raw⟩, 100⟩
        false
        [("src", ⟨3, FileData.raw⟩), ("RRN/build/n1.ipynb", ⟨10, FileData.raw⟩)]
        ⟨"n1", "src", some true, none, false, ["sync"], [], none, some "http://u", none, [], none⟩
      = Except.ok (fsSet [("src", ⟨3, FileData.raw⟩), ("RRN/build/n1.ipynb", ⟨10, FileData.raw⟩)]
            "src" ⟨5, FileData.raw⟩,
          [Ev.sync "http://u" "src"], none) :=
  C9_sync_before_staleness _ _ _ "http://u" ⟨10, FileData.raw⟩
    (by decide) rfl (by decide) (by decide) (by decide) (by decide) (by decide)
